import Mathlib

/-!
Shallow embedding of the brewtils schema compiler (`brewtils/decorators.py`)
and proofs about its normalization pipeline.

The data classes `Command`, `Parameter` and `Choices` live in
`brewtils.models`, which is not part of the sources here; they are modelled
from the specification's data-model section (plain value records with the
listed fields).  All logic — `parse_client`, `_initialize_command`,
`_initialize_parameter`, `_generate_nested_params`, `_format_type`,
`_format_choices`, `_validate_kwargness`, `_resolve_display_modifiers` — is
translated directly from `brewtils/decorators.py`.

Python values that flow through the compiler (defaults, choices values,
type_info, display definitions) are modelled by the inductive `Val`;
Python truthiness by `Val.truthy`.  Python dictionaries are association
lists with first-key-wins lookup and replace-or-append assignment.
Recursive functions take an explicit fuel argument (structural recursion on
the fuel); fuel exhaustion is the distinguished error `Err.fuel`, which
never occurs for fuel larger than the nesting depth of the input.
-/

namespace Brewtils

/-- Model of a Python value as it flows through the decorator module. -/
inductive Val where
  | none : Val
  | bool : Bool → Val
  | int : Int → Val
  | str : String → Val
  | list : List Val → Val
  | dict : List (String × Val) → Val

/-- Python truthiness for `Val`. -/
def Val.truthy : Val → Bool
  | .none => false
  | .bool b => b
  | .int n => n != 0
  | .str s => s != ""
  | .list l => !l.isEmpty
  | .dict d => !d.isEmpty

/-- Python `d.get(k)`: first binding of `k`, or `none`. -/
def dGet? (d : List (String × Val)) (k : String) : Option Val :=
  (d.find? (fun kv => kv.1 = k)).map (fun kv => kv.2)

/-- Python `d.get(k, dflt)`. -/
def dGetD (d : List (String × Val)) (k : String) (dflt : Val) : Val :=
  (dGet? d k).getD dflt

/-- Python `d[k] = v`: replace the first binding of `k`, else append. -/
def dSet (d : List (String × Val)) (k : String) (v : Val) : List (String × Val) :=
  match d with
  | [] => [(k, v)]
  | (k', v') :: rest => if k' = k then (k, v) :: rest else (k', v') :: dSet rest k v

/-- ASCII uppercase conversion of one character (Python `str.upper` on ASCII). -/
def upChar (c : Char) : Char :=
  if 97 ≤ c.toNat ∧ c.toNat ≤ 122 then Char.ofNat (c.toNat - 32) else c

/-- ASCII lowercase conversion of one character (Python `str.lower` on ASCII). -/
def downChar (c : Char) : Char :=
  if 65 ≤ c.toNat ∧ c.toNat ≤ 90 then Char.ofNat (c.toNat + 32) else c

/-- ASCII letter test (the word-boundary test of Python `str.title` on ASCII). -/
def alphaChar (c : Char) : Bool :=
  (65 ≤ c.toNat ∧ c.toNat ≤ 90) ∨ (97 ≤ c.toNat ∧ c.toNat ≤ 122)

/-- Python `str.lower` (ASCII). -/
def pyLower (s : String) : String :=
  String.mk (s.data.map downChar)

/-- Worker for `pyTitle`: the boolean records whether the previous character
was alphabetic. -/
def pyTitleGo : Bool → List Char → List Char
  | _, [] => []
  | prevAlpha, c :: cs =>
    if alphaChar c then
      (if prevAlpha then downChar c else upChar c) :: pyTitleGo true cs
    else
      c :: pyTitleGo false cs

/-- Python `str.title` (ASCII): first letter of every word upper-cased, the
rest lower-cased. -/
def pyTitle (s : String) : String :=
  String.mk (pyTitleGo false s.data)

/-- Structural `List.take`-style test that `pre` begins `cs`. -/
def charsStart : List Char → List Char → Bool
  | [], _ => true
  | _ :: _, [] => false
  | p :: ps, c :: cs => p = c && charsStart ps cs

/-- Python `s.startswith(pre)` (structural, kernel-reducible). -/
def pyStarts (s pre : String) : Bool :=
  charsStart pre.data s.data

/-- Python `s.endswith(suf)` (structural, kernel-reducible). -/
def pyEnds (s suf : String) : Bool :=
  charsStart suf.data.reverse s.data.reverse

/-- The value a user may pass as a parameter `type`: one of the Python
primitive classes, or an arbitrary (string) tag.  Absence (`None`) is
`Option.none` at use sites. -/
inductive PType where
  | clsStr : PType
  | clsInt : PType
  | clsFloat : PType
  | clsBool : PType
  | clsDict : PType
  | s : String → PType
deriving DecidableEq

/-- Python `str(param_type)` for the values `PType` can take. -/
def pyStrOfType : Option PType → String
  | Option.none => "None"
  | some .clsStr => "<class 'str'>"
  | some .clsInt => "<class 'int'>"
  | some .clsFloat => "<class 'float'>"
  | some .clsBool => "<class 'bool'>"
  | some .clsDict => "<class 'dict'>"
  | some (.s s) => s

/-- Python falsiness of a `type` argument (`not param_type`). -/
def typeFalsy : Option PType → Bool
  | Option.none => true
  | some (.s s) => s = ""
  | some _ => false

/-- `_format_type` from decorators.py: canonicalize a declared parameter type. -/
def _format_type (param_type : Option PType) : String :=
  match param_type with
  | some .clsStr => "String"
  | some .clsInt => "Integer"
  | some .clsFloat => "Float"
  | some .clsBool => "Boolean"
  | some .clsDict => "Dictionary"
  | t =>
    let st := pyStrOfType t
    if pyLower st = "file" then "Bytes"
    else if pyLower st = "datetime" then "DateTime"
    else if typeFalsy t then "Any"
    else pyTitle st

/-- The resolved Choices value object.  Modelled from the spec: `type`,
`display`, `value`, `strict`, `details` fields; constructed once by the
choices resolver.  (`brewtils.models.Choices` is not among the sources.) -/
structure Choices where
  type : String
  display : String
  value : Val
  strict : Val
  details : Val

/-- What can sit in a Parameter's `choices` slot: nothing, a raw Python
value (string / mapping / iterable / other), or an already-resolved
`Choices` object (after normalization has run once). -/
inductive ChoiceSpec where
  | cnone : ChoiceSpec
  | cval : Val → ChoiceSpec
  | cobj : Choices → ChoiceSpec

/-- Python truthiness of the `choices` argument.  A `Choices` model object
defines neither `__bool__` nor `__len__`, hence is always truthy (modelled
from the spec's description of `Choices` as a plain value object). -/
def ChoiceSpec.truthy : ChoiceSpec → Bool
  | .cnone => false
  | .cval v => v.truthy
  | .cobj _ => true

/-- Supported choices type tags.  Modelled from the spec (§3): static, url,
command, reference. -/
def choicesTYPES : List String := ["static", "url", "command", "reference"]

/-- Supported choices display tags.  Modelled from the spec (§3). -/
def choicesDISPLAYS : List String := ["select", "typeahead"]

/-- Errors raised by the compiler.  `pluginParamError` is the schema error
(PluginParamError); `typeError`/`keyError` model uncaught Python runtime
errors; `fuel` is fuel exhaustion of the embedding (never the code's own
behaviour). -/
inductive Err where
  | pluginParamError : String → Err
  | typeError : String → Err
  | keyError : String → Err
  | fuel : Err
deriving DecidableEq

/-- `determine_display` from `_format_choices`: a string means typeahead,
otherwise select for at most 50 elements.  `len` of a non-sized value is a
Python `TypeError`. -/
def determine_display (display_value : Val) : Except Err String :=
  match display_value with
  | .str _ => .ok "typeahead"
  | .list l => .ok (if l.length ≤ 50 then "select" else "typeahead")
  | .dict d => .ok (if d.length ≤ 50 then "select" else "typeahead")
  | _ => .error (.typeError "object has no len()")

/-- `determine_type` from `_format_choices`: a string starting with "http"
is a url, any other string is a command, everything else is static. -/
def determine_type (type_value : Val) : String :=
  match type_value with
  | .str s => if pyStarts s "http" then "url" else "command"
  | _ => "static"

/-- Modelled from the spec: `parse` from `brewtils.choices` (not among the
sources) interprets a raw string with one of three sub-grammars — a
command-reference grammar (`parse_as="func"`), a URL grammar
(`parse_as="url"`), or a parameter-reference grammar
(`parse_as="reference"`) — returning a structured descriptor and raising a
parse error on malformed input.  The descriptors below are minimal
stand-ins with that interface. -/
def parse (unparsed : String) (parse_as : String) : Except Unit Val :=
  if parse_as = "func" then
    if unparsed ≠ "" then .ok (.dict [("name", .str unparsed), ("args", .list [])])
    else .error ()
  else if parse_as = "url" then
    if pyStarts unparsed "http://" ∨ pyStarts unparsed "https://" then
      .ok (.dict [("address", .str unparsed), ("args", .list [])])
    else .error ()
  else
    if pyStarts unparsed "$\x7b" ∧ pyEnds unparsed "\x7d" ∧ 3 < unparsed.data.length then
      .ok (.str (String.mk ((unparsed.data.drop 2).dropLast)))
    else .error ()

/-- The `try: ... except ParseError` tail of `_format_choices` (lines
712-741): derive the `details` structure from the resolved type and value.
`origDict` is the original choices mapping (needed for `key_reference`). -/
def resolveDetails (origDict : Option (List (String × Val))) (choice_type : String)
    (value : Val) : Except Err Val :=
  if choice_type = "command" then
    match value with
    | .str s =>
      match parse s "func" with
      | .ok d => .ok d
      | .error _ =>
        .error (.pluginParamError ("Invalid choices definition - Unable to parse '" ++ s ++ "'"))
    | .dict d =>
      match dGet? d "command" with
      | Option.none => .error (.keyError "command")
      | some (.str s) =>
        match parse s "func" with
        | .ok dd => .ok dd
        | .error _ =>
          .error (.pluginParamError ("Invalid choices definition - Unable to parse '" ++ s ++ "'"))
      | some _ => .error (.typeError "lark cannot parse a non-string")
    | _ => .error (.typeError "lark cannot parse a non-string")
  else if choice_type = "url" then
    match value with
    | .str s =>
      match parse s "url" with
      | .ok d => .ok d
      | .error _ =>
        .error (.pluginParamError ("Invalid choices definition - Unable to parse '" ++ s ++ "'"))
    | _ => .error (.typeError "lark cannot parse a non-string")
  else
    match value with
    | .dict _ =>
      match origDict.bind (fun d => dGet? d "key_reference") with
      | Option.none =>
        .error (.pluginParamError
          ("Specifying a static choices dictionary requires a \"key_reference\" field with "
            ++ "a reference to another parameter (\"key_reference\": \"$\x7bparam_key\x7d\")"))
      | some (.str s) =>
        match parse s "reference" with
        | .ok d => .ok (.dict [("key_reference", d)])
        | .error _ =>
          .error (.pluginParamError ("Invalid choices definition - Unable to parse '" ++ s ++ "'"))
      | some _ => .error (.typeError "lark cannot parse a non-string")
    | _ => .ok (.dict [])

/-- `_format_choices` from decorators.py: interpret a raw choices
specification into a resolved `Choices`, or `none` for a falsy input. -/
def _format_choices (choices : ChoiceSpec) : Except Err (Option Choices) :=
  if !choices.truthy then .ok Option.none
  else
    match choices with
    | .cnone => .ok Option.none
    | .cval (.dict d) =>
      if !(dGetD d "value" Val.none).truthy then
        .error (.pluginParamError
          "No 'value' provided for choices. You must at least provide valid values.")
      else
        let value := dGetD d "value" Val.none
        match determine_display value with
        | .error e => .error e
        | .ok computedDisplay =>
          let display := dGetD d "display" (.str computedDisplay)
          let strict := dGetD d "strict" (.bool true)
          match
            (match dGet? d "type" with
             | Option.none => Except.ok (determine_type value)
             | some (.str ct) =>
               if !(choicesTYPES.contains ct) then
                 Except.error (Err.pluginParamError
                   ("Invalid choices type '" ++ ct ++ "' - Valid type options are " ++
                     String.intercalate ", " choicesTYPES))
               else if (ct = "command" ∧ !(match value with | .str _ => true | .dict _ => true | _ => false))
                   ∨ (ct = "url" ∧ !(match value with | .str _ => true | _ => false))
                   ∨ (ct = "static" ∧ !(match value with | .list _ => true | .dict _ => true | _ => false)) then
                 Except.error (Err.pluginParamError
                   ("Invalid choices value type - Valid value types for choice type '"
                     ++ ct ++ "' differ"))
               else Except.ok ct
             | some _ =>
               Except.error (Err.pluginParamError
                 "Invalid choices type - Valid type options are the supported tags"))
          with
          | .error e => .error e
          | .ok choice_type =>
            match display with
            | .str ds =>
              if !(choicesDISPLAYS.contains ds) then
                .error (.pluginParamError
                  ("Invalid choices display '" ++ ds ++ "' - Valid display options are " ++
                    String.intercalate ", " choicesDISPLAYS))
              else
                match resolveDetails (some d) choice_type value with
                | .error e => .error e
                | .ok details =>
                  .ok (some ⟨choice_type, ds, value, strict, details⟩)
            | _ =>
              .error (.pluginParamError
                "Invalid choices display - Valid display options are select, typeahead")
    | .cval (.str s) =>
      match resolveDetails Option.none (determine_type (.str s)) (.str s) with
      | .error e => .error e
      | .ok details =>
        .ok (some ⟨determine_type (.str s), "typeahead", .str s, .bool true, details⟩)
    | .cval (.list l) =>
      match determine_display (.list l) with
      | .error e => .error e
      | .ok ds =>
        match resolveDetails Option.none (determine_type (.list l)) (.list l) with
        | .error e => .error e
        | .ok details =>
          .ok (some ⟨determine_type (.list l), ds, .list l, .bool true, details⟩)
    | .cval _ =>
      .error (.pluginParamError "Invalid 'choices': must be a string, dictionary, or iterable.")
    | .cobj _ =>
      .error (.pluginParamError "Invalid 'choices': must be a string, dictionary, or iterable.")

/-- Kind of a formal parameter in a Python signature (`inspect.Parameter.kind`). -/
inductive PKind where
  | positionalOnly : PKind
  | positionalOrKeyword : PKind
  | varPositional : PKind
  | keywordOnly : PKind
  | varKeyword : PKind
deriving DecidableEq

/-- One formal parameter of a callable's (bound) signature; `default` is
`none` for `inspect.Parameter.empty`.  The implicit receiver (`self`) is
already excluded, as it is for a bound method. -/
structure SigParam where
  name : String
  kind : PKind
  default : Option Val

mutual
/-- The Parameter value object.  Modelled from the spec (§3) plus the
constructor-call sites in decorators.py: `brewtils.models.Parameter` is not
among the sources.  `default`/`type_info` are arbitrary Python values;
`parameters` is the raw nested list an author may fill with real
Parameters or (deprecated) model class objects; `model` is a class whose
`parameters` attribute is such a list. -/
inductive Parameter where
  | mk (key : Option String) (type : Option PType) (multi : Option Bool)
       (display_name : Option String) (optional : Option Bool) (default : Val)
       (description : Option String) (choices : ChoiceSpec)
       (parameters : List PItem) (nullable : Option Bool)
       (maximum : Option Int) (minimum : Option Int) (regex : Option String)
       (form_input_type : Option String) (type_info : Val)
       (is_kwarg : Option Bool) (model : Option (List PItem)) : Parameter

/-- An entry of a raw nested-parameters list: a real `Parameter`, a
(deprecated) model class object carrying its own `parameters` list, or
anything else (which `_generate_nested_params` rejects). -/
inductive PItem where
  | param (p : Parameter) : PItem
  | modelObj (params : List PItem) : PItem
  | junk (repr : String) : PItem
end

def Parameter.key : Parameter → Option String
  | .mk k _ _ _ _ _ _ _ _ _ _ _ _ _ _ _ _ => k

def Parameter.type : Parameter → Option PType
  | .mk _ t _ _ _ _ _ _ _ _ _ _ _ _ _ _ _ => t

def Parameter.multi : Parameter → Option Bool
  | .mk _ _ m _ _ _ _ _ _ _ _ _ _ _ _ _ _ => m

def Parameter.display_name : Parameter → Option String
  | .mk _ _ _ d _ _ _ _ _ _ _ _ _ _ _ _ _ => d

def Parameter.optional : Parameter → Option Bool
  | .mk _ _ _ _ o _ _ _ _ _ _ _ _ _ _ _ _ => o

def Parameter.default : Parameter → Val
  | .mk _ _ _ _ _ d _ _ _ _ _ _ _ _ _ _ _ => d

def Parameter.description : Parameter → Option String
  | .mk _ _ _ _ _ _ d _ _ _ _ _ _ _ _ _ _ => d

def Parameter.choices : Parameter → ChoiceSpec
  | .mk _ _ _ _ _ _ _ c _ _ _ _ _ _ _ _ _ => c

def Parameter.parameters : Parameter → List PItem
  | .mk _ _ _ _ _ _ _ _ ps _ _ _ _ _ _ _ _ => ps

def Parameter.nullable : Parameter → Option Bool
  | .mk _ _ _ _ _ _ _ _ _ n _ _ _ _ _ _ _ => n

def Parameter.maximum : Parameter → Option Int
  | .mk _ _ _ _ _ _ _ _ _ _ mx _ _ _ _ _ _ => mx

def Parameter.minimum : Parameter → Option Int
  | .mk _ _ _ _ _ _ _ _ _ _ _ mn _ _ _ _ _ => mn

def Parameter.regex : Parameter → Option String
  | .mk _ _ _ _ _ _ _ _ _ _ _ _ r _ _ _ _ => r

def Parameter.form_input_type : Parameter → Option String
  | .mk _ _ _ _ _ _ _ _ _ _ _ _ _ f _ _ _ => f

def Parameter.type_info : Parameter → Val
  | .mk _ _ _ _ _ _ _ _ _ _ _ _ _ _ ti _ _ => ti

def Parameter.is_kwarg : Parameter → Option Bool
  | .mk _ _ _ _ _ _ _ _ _ _ _ _ _ _ _ ik _ => ik

def Parameter.model : Parameter → Option (List PItem)
  | .mk _ _ _ _ _ _ _ _ _ _ _ _ _ _ _ _ m => m

/-- Python truthiness of an `Option Bool` attribute (`None` is falsy). -/
def truthyOpt : Option Bool → Bool
  | Option.none => false
  | some b => b

/-- `_validate_kwargness` from decorators.py: check a top-level Parameter
against the callable's signature.  Returns the formal parameter's default
when it has one (the Python function returns `None` otherwise, modelled as
`Val.none`). -/
def _validate_kwargness (sig : List SigParam) (param : Parameter) : Except Err Val :=
  let sig_param := sig.find? (fun p => some p.name = param.key)
  let has_kwargs := sig.any (fun p => p.kind = PKind.varKeyword)
  match sig_param with
  | Option.none =>
    if param.is_kwarg = some false then
      .error (.pluginParamError
        ("Parameter was not not marked as part of kwargs and wasn't found in "
          ++ "the method signature (should is_kwarg be True?)"))
    else if !has_kwargs then
      .error (.pluginParamError
        ("Parameter was declared as a kwarg (is_kwarg=True) but the method "
          ++ "signature does not declare a **kwargs parameter"))
    else .ok Val.none
  | some sp =>
    if truthyOpt param.is_kwarg then
      .error (.pluginParamError
        ("Parameter was marked as part of kwargs but was found in the method "
          ++ "signature (should is_kwarg be False?)"))
    else if sp.kind = PKind.positionalOnly then
      .error (.pluginParamError "Sorry, positional-only type parameters are not supported")
    else
      match sp.default with
      | some v => .ok v
      | Option.none => .ok Val.none

/-- The string key a Parameter's default is stored under when a model
default mapping is synthesized (normalized children always have a key). -/
def keyStr (c : Parameter) : String := c.key.getD ""

/-- The synthesized default of a model-backed Parameter (lines 566-570 of
decorators.py): start from `{}` and assign each nested parameter's default
under its key when that default is truthy. -/
def synthDefault (children : List Parameter) : Val :=
  .dict (children.foldl
    (fun acc c => if c.default.truthy then dSet acc (keyStr c) c.default else acc) [])

/-- The entry a child contributes to the synthesized default mapping. -/
def synthEntry (c : Parameter) : Option (String × Val) :=
  if c.default.truthy then some (keyStr c, c.default) else Option.none

mutual
/-- `_initialize_parameter` from decorators.py, with explicit fuel.  `fn`
is the optional source callable's signature (given only for top-level
Parameters).  The input Parameter's fields are read, checked and rewritten
exactly in the source's order; the result is the (in-place mutated)
Parameter as returned by the Python function. -/
def _initialize_parameter : Nat → Parameter → Option (List SigParam) → Except Err Parameter
  | 0, _, _ => .error .fuel
  | fuel+1, param, fn =>
    match param.key with
    | Option.none => .error (.pluginParamError "Attempted to create a parameter without a key")
    | some _ =>
      let t := _format_type param.type
      match _format_choices param.choices with
      | .error e => .error e
      | .ok chRes =>
        let ch : ChoiceSpec := match chRes with
          | some c => .cobj c
          | Option.none => .cnone
        match (match fn with
               | some sig => _validate_kwargness sig param
               | Option.none => Except.ok Val.none) with
        | .error e => .error e
        | .ok func_default =>
          let d1 := if func_default.truthy && (match param.default with
                      | Val.none => true
                      | _ => false) then func_default else param.default
          let ti := if t = "Bytes" then Val.dict [("storage", Val.str "gridfs")]
                    else param.type_info
          let d2 := if t = "Base64" then Val.none else d1
          match param.parameters with
          | _ :: _ =>
            match _generate_nested_params fuel param.parameters with
            | .error e => .error e
            | .ok qs =>
              .ok (.mk param.key (some (.s "Dictionary")) param.multi param.display_name
                param.optional d2 param.description ch (qs.map .param) param.nullable
                param.maximum param.minimum param.regex param.form_input_type ti
                param.is_kwarg param.model)
          | [] =>
            match param.model with
            | some modelParams =>
              match _generate_nested_params fuel modelParams with
              | .error e => .error e
              | .ok qs =>
                let d3 := if !truthyOpt param.nullable && !d2.truthy then synthDefault qs else d2
                .ok (.mk param.key (some (.s "Dictionary")) param.multi param.display_name
                  param.optional d3 param.description ch (qs.map .param) param.nullable
                  param.maximum param.minimum param.regex param.form_input_type ti
                  param.is_kwarg param.model)
            | Option.none =>
              .ok (.mk param.key (some (.s t)) param.multi param.display_name
                param.optional d2 param.description ch [] param.nullable
                param.maximum param.minimum param.regex param.form_input_type ti
                param.is_kwarg param.model)

/-- `_generate_nested_params` from decorators.py, with explicit fuel:
normalize every entry of a raw nested-parameters list; model class objects
have their own parameter list spliced in (deprecated path); anything else
is a schema error. -/
def _generate_nested_params : Nat → List PItem → Except Err (List Parameter)
  | _, [] => .ok []
  | 0, _ :: _ => .error .fuel
  | fuel+1, .param p :: rest =>
    match _initialize_parameter fuel p Option.none with
    | .error e => .error e
    | .ok q =>
      match _generate_nested_params fuel rest with
      | .error e => .error e
      | .ok qs => .ok (q :: qs)
  | fuel+1, .modelObj ps :: rest =>
    match _generate_nested_params fuel ps with
    | .error e => .error e
    | .ok a =>
      match _generate_nested_params fuel rest with
      | .error e => .error e
      | .ok b => .ok (a ++ b)
  | _+1, .junk r :: _ =>
    .error (.pluginParamError ("Unable to generate parameter from '" ++ r ++ "'"))
end

/-- The Command value object.  Modelled from the spec (§3) plus the
constructor-call sites in decorators.py (`brewtils.models.Command` is not
among the sources): a fresh `Command()` has every field absent/empty. -/
structure Command where
  name : Option String
  description : Option String
  parameters : List Parameter
  command_type : Option String
  output_type : Option String
  schema : Val
  form : Val
  template : Val
  icon_name : Option String
  hidden : Bool

/-- A fresh `Command()` (all defaults). -/
def freshCommand : Command :=
  ⟨Option.none, Option.none, [], Option.none, Option.none, Val.none, Val.none, Val.none,
    Option.none, false⟩

/-- `Command.parameter_keys` (modelled from its use in decorators.py). -/
def Command.parameter_keys (c : Command) : List (Option String) :=
  c.parameters.map Parameter.key

/-- External world used by `_resolve_display_modifiers`: fetching a URL
(`requests.get` plus the JSON content-type handling of `_load_from_url`),
reading a file relative to the defining source (`_load_from_path`), and
`json.loads`.  These are I/O collaborators outside the compiler; they are
abstracted as oracle functions. -/
structure Env where
  loadUrl : String → Except Err Val
  loadPath : String → Except Err String
  jsonLoads : String → Except Err Val

/-- Resolve a single schema/form/template field (`_resolve_display_modifiers`
body for one key).  Any exception raised while handling a string value —
including the inner "was not a definition" error — is re-wrapped into the
"Error reading ..." schema error, exactly as the source's try/except does. -/
def resolveOne (env : Env) (command_name key : String) (value : Val) : Except Err Val :=
  match value with
  | .str s =>
    match
      (if pyStarts s "http" then env.loadUrl s
       else if pyStarts s "/" || pyStarts s "." then
         match env.loadPath s with
         | .error e => .error e
         | .ok loaded => if key = "template" then .ok (.str loaded) else env.jsonLoads loaded
       else if key = "template" then .ok (.str s)
       else .error (.pluginParamError
         (key ++ " specified for command '" ++ command_name ++
           "' was not a definition, file path, or URL")))
    with
    | .ok v => .ok v
    | .error _ =>
      .error (.pluginParamError
        ("Error reading " ++ key ++ " definition from '" ++ s ++ "' for command '"
          ++ command_name ++ "'"))
  | Val.none => .ok Val.none
  | .dict _ =>
    if key = "schema" ∨ key = "form" then .ok value
    else .error (.pluginParamError
      (key ++ " specified for command '" ++ command_name ++
        "' was not a definition, file path, or URL"))
  | .list l =>
    if key = "form" then .ok (.dict [("type", .str "fieldset"), ("items", .list l)])
    else .error (.pluginParamError
      (key ++ " specified for command '" ++ command_name ++
        "' was not a definition, file path, or URL"))
  | _ =>
    .error (.pluginParamError
      (key ++ " specified for command '" ++ command_name ++
        "' was not a definition, file path, or URL"))

/-- `_resolve_display_modifiers` from decorators.py: resolve the three
display fields in the source's iteration order. -/
def _resolve_display_modifiers (env : Env) (command_name : String)
    (schema form template : Val) : Except Err (Val × Val × Val) :=
  match resolveOne env command_name "schema" schema with
  | .error e => .error e
  | .ok s =>
    match resolveOne env command_name "form" form with
    | .error e => .error e
    | .ok f =>
      match resolveOne env command_name "template" template with
      | .error e => .error e
      | .ok t => .ok (s, f, t)

/-- `_function_docstring` from decorators.py: first line of the docstring,
or `None` for an absent/empty docstring. -/
def _function_docstring (doc : Option String) : Option String :=
  match doc with
  | Option.none => Option.none
  | some s => if s = "" then Option.none else some (String.mk (s.data.takeWhile (· ≠ '\n')))

/-- The fresh Parameter synthesized for an uncovered formal parameter
(`Parameter(key=arg.name, optional=False)`). -/
def freshParam (name : String) : Parameter :=
  .mk (some name) Option.none Option.none Option.none (some false) Val.none Option.none
    .cnone [] Option.none Option.none Option.none Option.none Option.none Val.none
    Option.none Option.none

/-- Replace a Parameter's `default` field. -/
def setDefault (p : Parameter) (v : Val) : Parameter :=
  .mk p.key p.type p.multi p.display_name p.optional v p.description p.choices
    p.parameters p.nullable p.maximum p.minimum p.regex p.form_input_type p.type_info
    p.is_kwarg p.model

/-- Set a Parameter's `optional` field. -/
def setOptional (p : Parameter) (b : Bool) : Parameter :=
  .mk p.key p.type p.multi p.display_name (some b) p.default p.description p.choices
    p.parameters p.nullable p.maximum p.minimum p.regex p.form_input_type p.type_info
    p.is_kwarg p.model

/-- `Command.get_parameter_by_key` followed by the in-place
`optional = False` (lines 381-383): update the first Parameter with the
given key if its `optional` is unset.  (`get_parameter_by_key` is modelled
from the spec as first-match lookup.) -/
def setOptFirst (k : String) : List Parameter → List Parameter
  | [] => []
  | p :: rest =>
    if p.key = some k then
      (if p.optional = Option.none then setOptional p false else p) :: rest
    else p :: setOptFirst k rest

/-- The signature-merging loop of `_initialize_command` (lines 372-383):
for every formal parameter, either synthesize a missing Parameter with
`optional=False` or force an unset `optional` on the declared one. -/
def sigLoop (sig : List SigParam) (ps : List Parameter) : List Parameter :=
  sig.foldl
    (fun acc arg =>
      if (acc.map Parameter.key).contains (some arg.name) then setOptFirst arg.name acc
      else acc ++ [freshParam arg.name])
    ps

/-- The per-parameter loop of `parse_client`
(`for p in method_command.parameters: _initialize_parameter(param=p, func=method)`):
normalize each top-level Parameter against the method's signature,
stopping at the first error. -/
def initAll (fuel : Nat) (sig : List SigParam) : List Parameter → Except Err (List Parameter)
  | [] => .ok []
  | p :: rest =>
    match _initialize_parameter fuel p (some sig) with
    | .error e => .error e
    | .ok q =>
      match initAll fuel sig rest with
      | .error e => .error e
      | .ok qs => .ok (q :: qs)

/-- A method of a client object as the compiler sees it: its name,
docstring, bound signature, the `_command` attribute left by `@command`
(if any) and the `parameters` attribute accumulated by `@parameter`.
`funcId` stands for the underlying function's identity/behaviour, which
the decorators never touch. -/
structure Method where
  funcId : Nat
  name : String
  doc : Option String
  cmdAttr : Option Command
  paramsAttr : List Parameter
  sig : List SigParam

/-- `_initialize_command` for one method followed by the per-parameter
normalization loop of `parse_client`, with the resulting attribute
mutations made explicit: the returned `Method` is the same method after
the run.  Because `cmd = getattr(method, "_command", Command())` aliases
the stored `_command`, every field update of `cmd` — and the `+=` on its
parameter list — lands in the attribute when it exists; and because the
Parameter objects in the method's `parameters` attribute are the very
objects normalized in place by `parse_client`, the attribute afterwards
holds their normalized values (they sit at their original positions,
after `cmd`'s own raw parameters, in the merged list). -/
def runMethod (env : Env) (fuel : Nat) (m : Method) : Except Err (Command × Method) :=
  let cmd0 := m.cmdAttr.getD freshCommand
  let desc := match cmd0.description with
    | some s => if s = "" then _function_docstring m.doc else some s
    | Option.none => _function_docstring m.doc
  match _resolve_display_modifiers env m.name cmd0.schema cmd0.form cmd0.template with
  | .error e => .error e
  | .ok (s, f, t) =>
    let params1 := cmd0.parameters ++ m.paramsAttr
    let params2 := sigLoop m.sig params1
    match initAll fuel m.sig params2 with
    | .error e => .error e
    | .ok params3 =>
      let cmd1 : Command :=
        ⟨some m.name, desc, params3, cmd0.command_type, cmd0.output_type, s, f, t,
          cmd0.icon_name, cmd0.hidden⟩
      let m1 : Method :=
        { m with
          cmdAttr := m.cmdAttr.map (fun _ => cmd1),
          paramsAttr := (params3.drop cmd0.parameters.length).take m.paramsAttr.length }
      .ok (cmd1, m1)

/-- `parse_client` from decorators.py over the (already filtered and
`dir()`-ordered) methods that carry command or parameter metadata: compile
each in turn, returning the Commands and the mutated methods. -/
def parse_client (env : Env) (fuel : Nat) : List Method → Except Err (List Command × List Method)
  | [] => .ok ([], [])
  | m :: rest =>
    match runMethod env fuel m with
    | .error e => .error e
    | .ok (c, m1) =>
      match parse_client env fuel rest with
      | .error e => .error e
      | .ok (cs, ms) => .ok (c :: cs, m1 :: ms)

/-- The `@command` decorator applied to a function object (lines 167-179):
store a raw `Command` built from the keyword arguments in the `_command`
attribute and return the very same function object. -/
def commandDecorator (description : Option String) (parameters : List Parameter)
    (command_type output_type : String) (schema form template : Val)
    (icon_name : Option String) (hidden : Bool) (m : Method) : Method :=
  let raw : Command :=
    Command.mk Option.none description parameters (some command_type) (some output_type)
      schema form template icon_name hidden
  { m with cmdAttr := some raw }

/-- The `@parameter` decorator applied to a function object (lines
273-297): ensure the `parameters` attribute exists, append one raw
`Parameter` built from the keyword arguments, and return the very same
function object. -/
def parameterDecorator (key : Option String) (type : Option PType) (multi : Option Bool)
    (display_name : Option String) (optional : Option Bool) (default : Val)
    (description : Option String) (choices : ChoiceSpec) (parameters : List PItem)
    (nullable : Option Bool) (maximum : Option Int) (minimum : Option Int)
    (regex : Option String) (form_input_type : Option String) (type_info : Val)
    (is_kwarg : Option Bool) (model : Option (List PItem)) (m : Method) : Method :=
  { m with paramsAttr := m.paramsAttr ++
      [.mk key type multi display_name optional default description choices parameters
        nullable maximum minimum regex form_input_type type_info is_kwarg model] }

/-- A Parameter with only the fields of interest set, everything else as
the decorator's keyword defaults (`None`). -/
def basicParam (key : Option String) (type : Option PType) (default : Val)
    (choices : ChoiceSpec) (parameters : List PItem) (nullable : Option Bool)
    (is_kwarg : Option Bool) (model : Option (List PItem)) : Parameter :=
  .mk key type Option.none Option.none Option.none default Option.none choices parameters
    nullable Option.none Option.none Option.none Option.none Val.none is_kwarg model

/-- Is this parameter-list entry a real `Parameter` (not a deprecated
model class object, not junk)? -/
def isParamItem : PItem → Prop
  | .param _ => True
  | _ => False

/-- A Parameter tree in the plain (non-deprecated, choices-free) fragment:
no choices specification anywhere, and every entry of a `parameters` list
or model parameter list is a real `Parameter` (no model class objects, no
junk). -/
inductive Plain : Parameter → Prop where
  | mk (p : Parameter) :
      p.choices = ChoiceSpec.cnone →
      (∀ i ∈ p.parameters, isParamItem i) →
      (∀ c, PItem.param c ∈ p.parameters → Plain c) →
      (∀ l, p.model = some l → ∀ i ∈ l, isParamItem i) →
      (∀ l, p.model = some l → ∀ c, PItem.param c ∈ l → Plain c) →
      Plain p

/-- All entries of a raw nested-parameters list are plain `Parameter`s. -/
def PlainItems (items : List PItem) : Prop :=
  (∀ i ∈ items, isParamItem i) ∧ (∀ c, PItem.param c ∈ items → Plain c)

/-- The Dictionary invariant over a Parameter tree: every node with a
non-empty `parameters` list has canonical type Dictionary, recursively. -/
inductive DictInv : Parameter → Prop where
  | mk (p : Parameter) :
      (p.parameters ≠ [] → p.type = some (.s "Dictionary")) →
      (∀ c, PItem.param c ∈ p.parameters → DictInv c) →
      DictInv p

/-- The choices type-inference rule exactly as claim C2 words it (for
comparison with the source's `determine_type`): "url" for a string value
starting with an HTTP(S) scheme, "command" for any other string value and
also for a mapping value that contains the key "command", and "static" in
every other case. -/
def claimedTypeInference (v : Val) : String :=
  match v with
  | .str s => if pyStarts s "http" then "url" else "command"
  | .dict d => if (dGet? d "command").isSome then "command" else "static"
  | _ => "static"

/-- A model child parameter `x` with default `1`. -/
def cxX : Parameter :=
  basicParam (some "x") Option.none (.int 1) .cnone [] Option.none Option.none Option.none

/-- A model child parameter `y` without a default. -/
def cxY : Parameter :=
  basicParam (some "y") Option.none Val.none .cnone [] Option.none Option.none Option.none

/-- A model-backed parameter `m` whose model declares `x` (default 1) and `y`. -/
def cxM : Parameter :=
  basicParam (some "m") Option.none Val.none .cnone [] Option.none Option.none
    (some [.param cxX, .param cxY])

/-- The normalized form of `cxX` (type canonicalized to Any). -/
def cxXN : Parameter :=
  basicParam (some "x") (some (.s "Any")) (.int 1) .cnone [] Option.none Option.none Option.none

/-- The normalized form of `cxY` (type canonicalized to Any). -/
def cxYN : Parameter :=
  basicParam (some "y") (some (.s "Any")) Val.none .cnone [] Option.none Option.none Option.none

/-- A model child parameter `z` that declares the falsy default `0`. -/
def cxZ : Parameter :=
  basicParam (some "z") Option.none (.int 0) .cnone [] Option.none Option.none Option.none

/-- A model-backed parameter whose model declares only `z` (default 0). -/
def cxMZ : Parameter :=
  basicParam (some "mz") Option.none Val.none .cnone [] Option.none Option.none
    (some [.param cxZ])

/-- A signature with one formal parameter `b` whose default is the falsy value `0`. -/
def cxSigB0 : List SigParam := [⟨"b", .positionalOrKeyword, some (.int 0)⟩]

/-- A signature with one formal parameter `b` whose default is `5`. -/
def cxSigB5 : List SigParam := [⟨"b", .positionalOrKeyword, some (.int 5)⟩]

/-- A declared Parameter with key `b` and no default of its own. -/
def cxB : Parameter :=
  basicParam (some "b") Option.none Val.none .cnone [] Option.none Option.none Option.none

/-- A Parameter with a URL choices specification. -/
def cxK : Parameter :=
  basicParam (some "k") Option.none Val.none (.cval (.str "http://host/choices")) []
    Option.none Option.none Option.none

/-- An environment whose I/O collaborators are never consulted (every
concrete scenario below has absent display fields). -/
def env0 : Env :=
  ⟨fun _ => .error (.pluginParamError "network disabled"),
   fun _ => .error (.pluginParamError "filesystem disabled"),
   fun _ => .error (.pluginParamError "json disabled")⟩

/-- A method carrying two `@parameter` annotations that declare the same
key `b`, with signature `(self, b)`. -/
def cxDupM : Method :=
  ⟨0, "m", Option.none, Option.none, [cxB, cxB],
    [⟨"b", .positionalOrKeyword, Option.none⟩]⟩

/-- A method carrying one `@parameter` annotation for key `b`, with
signature `(self, b)`. -/
def cxSingleM : Method :=
  ⟨0, "m", Option.none, Option.none, [cxB],
    [⟨"b", .positionalOrKeyword, Option.none⟩]⟩

/-- A method decorated with a bare `@command` (so a raw `Command` with the
decorator's default keyword arguments sits in its `_command` attribute) and
one `@parameter` annotation for key `b`, with signature `(self, b)`. -/
def cxC6M : Method :=
  commandDecorator Option.none [] "ACTION" "STRING" Val.none Val.none Val.none Option.none
    false ⟨0, "m", Option.none, Option.none, [cxB], [⟨"b", .positionalOrKeyword, Option.none⟩]⟩

/-- A choices mapping without a `type` entry whose value is a mapping
containing the key "command". -/
def cxC2 : List (String × Val) :=
  [("value", .dict [("command", .str "cx")]), ("key_reference", .str "$\x7bk\x7d")]

/-- The resolved Choices for the witness mapping `{"value": "http://x"}`. -/
def cxC2W : Choices :=
  ⟨"url", "typeahead", .str "http://x", .bool true,
    .dict [("address", .str "http://x"), ("args", .list [])]⟩

end Brewtils

namespace Brewtils

/-! ### Helper lemmas -/

theorem initParam_succ (fuel : Nat) (param : Parameter) (fn : Option (List SigParam)) :
    _initialize_parameter (fuel+1) param fn =
      match param.key with
      | Option.none => .error (.pluginParamError "Attempted to create a parameter without a key")
      | some _ =>
        let t := _format_type param.type
        match _format_choices param.choices with
        | .error e => .error e
        | .ok chRes =>
          let ch : ChoiceSpec := match chRes with
            | some c => .cobj c
            | Option.none => .cnone
          match (match fn with
                 | some sig => _validate_kwargness sig param
                 | Option.none => Except.ok Val.none) with
          | .error e => .error e
          | .ok func_default =>
            let d1 := if func_default.truthy && (match param.default with
                        | Val.none => true
                        | _ => false) then func_default else param.default
            let ti := if t = "Bytes" then Val.dict [("storage", Val.str "gridfs")]
                      else param.type_info
            let d2 := if t = "Base64" then Val.none else d1
            match param.parameters with
            | _ :: _ =>
              match _generate_nested_params fuel param.parameters with
              | .error e => .error e
              | .ok qs =>
                .ok (.mk param.key (some (.s "Dictionary")) param.multi param.display_name
                  param.optional d2 param.description ch (qs.map .param) param.nullable
                  param.maximum param.minimum param.regex param.form_input_type ti
                  param.is_kwarg param.model)
            | [] =>
              match param.model with
              | some modelParams =>
                match _generate_nested_params fuel modelParams with
                | .error e => .error e
                | .ok qs =>
                  let d3 := if !truthyOpt param.nullable && !d2.truthy then synthDefault qs else d2
                  .ok (.mk param.key (some (.s "Dictionary")) param.multi param.display_name
                    param.optional d3 param.description ch (qs.map .param) param.nullable
                    param.maximum param.minimum param.regex param.form_input_type ti
                    param.is_kwarg param.model)
              | Option.none =>
                .ok (.mk param.key (some (.s t)) param.multi param.display_name
                  param.optional d2 param.description ch [] param.nullable
                  param.maximum param.minimum param.regex param.form_input_type ti
                  param.is_kwarg param.model) := by
  rfl

theorem setOptional_key (p : Parameter) (b : Bool) : (setOptional p b).key = p.key := rfl

theorem setOptional_optional (p : Parameter) (b : Bool) :
    (setOptional p b).optional = some b := rfl

theorem sigLoop_nil (ps : List Parameter) : sigLoop [] ps = ps := rfl

theorem sigLoop_cons (a : SigParam) (sig : List SigParam) (ps : List Parameter) :
    sigLoop (a :: sig) ps =
      sigLoop sig
        (if (ps.map Parameter.key).contains (some a.name) then setOptFirst a.name ps
         else ps ++ [freshParam a.name]) := by
  unfold sigLoop
  by_cases hc : (ps.map Parameter.key).contains (some a.name) <;> simp [hc]

theorem setOptFirst_keys (k : String) (ps : List Parameter) :
    (setOptFirst k ps).map Parameter.key = ps.map Parameter.key := by
  induction ps with
  | nil => rfl
  | cons h t ih =>
    simp only [setOptFirst]
    split
    · split <;> simp [setOptional_key]
    · simp [ih]

theorem mem_setOptFirst_stable {p : Parameter} {ps : List Parameter} (k : String)
    (hp : p ∈ ps) (ho : p.optional ≠ Option.none) : p ∈ setOptFirst k ps := by
  induction ps with
  | nil => cases hp
  | cons h t ih =>
    rcases List.mem_cons.mp hp with rfl | hpt
    · by_cases hk : p.key = some k
      · simp only [setOptFirst, if_pos hk, if_neg ho]
        exact List.mem_cons_self _ _
      · simp only [setOptFirst, if_neg hk]
        exact List.mem_cons_self _ _
    · simp only [setOptFirst]
      split
      · exact List.mem_cons_of_mem _ hpt
      · exact List.mem_cons_of_mem _ (ih hpt)

theorem mem_setOptFirst_of_ne {p : Parameter} {ps : List Parameter} {k : String}
    (hp : p ∈ ps) (hk : p.key ≠ some k) : p ∈ setOptFirst k ps := by
  induction ps with
  | nil => cases hp
  | cons h t ih =>
    simp only [setOptFirst]
    rcases List.mem_cons.mp hp with rfl | hpt
    · rw [if_neg hk]; exact List.mem_cons_self _ _
    · split
      · exact List.mem_cons_of_mem _ hpt
      · exact List.mem_cons_of_mem _ (ih hpt)

theorem setOptFirst_hit {p : Parameter} {ps : List Parameter} {k : String}
    (hnd : (ps.map Parameter.key).Nodup) (hp : p ∈ ps) (hk : p.key = some k)
    (ho : p.optional = Option.none) : setOptional p false ∈ setOptFirst k ps := by
  induction ps with
  | nil => cases hp
  | cons h t ih =>
    simp only [setOptFirst]
    rcases List.mem_cons.mp hp with rfl | hpt
    · rw [if_pos hk, if_pos ho]; exact List.mem_cons_self _ _
    · rw [List.map_cons] at hnd
      obtain ⟨h1, hnd'⟩ := List.nodup_cons.mp hnd
      by_cases hh : h.key = some k
      · exfalso
        have hmem : p.key ∈ t.map Parameter.key := List.mem_map_of_mem _ hpt
        rw [hk] at hmem
        rw [hh] at h1
        exact h1 hmem
      · rw [if_neg hh]
        exact List.mem_cons_of_mem _ (ih hnd' hpt)

theorem mem_sigLoop_stable {p : Parameter} (sig : List SigParam) {ps : List Parameter}
    (hp : p ∈ ps) (ho : p.optional ≠ Option.none) : p ∈ sigLoop sig ps := by
  induction sig generalizing ps with
  | nil => exact hp
  | cons a rest ih =>
    rw [sigLoop_cons]
    split
    · exact ih (mem_setOptFirst_stable _ hp ho)
    · exact ih (List.mem_append_left _ hp)

theorem sigLoop_keys_nodup (sig : List SigParam) {ps : List Parameter}
    (hnd : (ps.map Parameter.key).Nodup) : ((sigLoop sig ps).map Parameter.key).Nodup := by
  induction sig generalizing ps with
  | nil => exact hnd
  | cons a rest ih =>
    rw [sigLoop_cons]
    split
    · exact ih (by rwa [setOptFirst_keys])
    · rename_i hc
      refine ih ?_
      have hnm : some a.name ∉ ps.map Parameter.key := by
        intro hmem
        exact hc (by simpa using hmem)
      simp only [List.map_append, List.map_cons, List.map_nil]
      refine List.Nodup.append hnd (List.nodup_singleton _) ?_
      intro x hx hxx
      have hxe : x = (freshParam a.name).key := List.mem_singleton.mp hxx
      rw [hxe] at hx
      exact hnm hx

theorem charToNat_ofNat (n : Nat) (h : n.isValidChar) : (Char.ofNat n).toNat = n := by
  unfold Char.ofNat
  rw [dif_pos h]
  unfold Char.ofNatAux
  simp [Char.toNat, UInt32.toNat, UInt32.ofNat', Fin.ofNat']

theorem charEq_of_toNat {a b : Char} (h : a.toNat = b.toNat) : a = b := by
  apply Char.ext
  have : a.val.toNat = b.val.toNat := h
  exact UInt32.ext this

theorem upChar_toNat (c : Char) :
    (upChar c).toNat = if 97 ≤ c.toNat ∧ c.toNat ≤ 122 then c.toNat - 32 else c.toNat := by
  unfold upChar
  split
  · rename_i h
    exact charToNat_ofNat _ (Or.inl (by omega))
  · rfl

theorem downChar_toNat (c : Char) :
    (downChar c).toNat = if 65 ≤ c.toNat ∧ c.toNat ≤ 90 then c.toNat + 32 else c.toNat := by
  unfold downChar
  split
  · rename_i h
    exact charToNat_ofNat _ (Or.inl (by omega))
  · rfl

theorem upChar_upChar (c : Char) : upChar (upChar c) = upChar c := by
  apply charEq_of_toNat
  simp only [upChar_toNat]
  repeat any_goals split
  all_goals omega

theorem downChar_downChar (c : Char) : downChar (downChar c) = downChar c := by
  apply charEq_of_toNat
  simp only [downChar_toNat]
  repeat any_goals split
  all_goals omega

theorem downChar_upChar (c : Char) : downChar (upChar c) = downChar c := by
  apply charEq_of_toNat
  simp only [downChar_toNat, upChar_toNat]
  repeat any_goals split
  all_goals omega

theorem alphaChar_upChar (c : Char) : alphaChar (upChar c) = alphaChar c := by
  unfold alphaChar
  apply decide_eq_decide.mpr
  rw [upChar_toNat]
  split <;> omega

theorem alphaChar_downChar (c : Char) : alphaChar (downChar c) = alphaChar c := by
  unfold alphaChar
  apply decide_eq_decide.mpr
  rw [downChar_toNat]
  split <;> omega

theorem pyTitleGo_idem (l : List Char) : ∀ b, pyTitleGo b (pyTitleGo b l) = pyTitleGo b l := by
  induction l with
  | nil => intro b; rfl
  | cons c cs ih =>
    intro b
    by_cases ha : alphaChar c = true
    · cases b with
      | false =>
        simp only [pyTitleGo, if_pos ha, if_false, Bool.false_eq_true, alphaChar_upChar,
          upChar_upChar, ih true]
      | true =>
        simp only [pyTitleGo, if_pos ha, if_true, alphaChar_downChar,
          downChar_downChar, ih true]
    · have ha' : alphaChar c = false := by
        cases hc : alphaChar c
        · rfl
        · exact absurd hc ha
      simp only [pyTitleGo, ha', if_false, Bool.false_eq_true, ih false]

theorem map_downChar_pyTitleGo (l : List Char) :
    ∀ b, (pyTitleGo b l).map downChar = l.map downChar := by
  induction l with
  | nil => intro b; rfl
  | cons c cs ih =>
    intro b
    by_cases ha : alphaChar c = true
    · cases b with
      | false =>
        simp only [pyTitleGo, if_pos ha, if_false, Bool.false_eq_true, List.map_cons,
          ih true, downChar_upChar]
      | true =>
        simp only [pyTitleGo, if_pos ha, if_true, List.map_cons, ih true, downChar_downChar]
    · have ha' : alphaChar c = false := by
        cases hc : alphaChar c
        · rfl
        · exact absurd hc ha
      simp only [pyTitleGo, ha', if_false, List.map_cons, ih false, Bool.false_eq_true]

theorem pyTitle_idem (s : String) : pyTitle (pyTitle s) = pyTitle s := by
  unfold pyTitle
  rw [show (String.mk (pyTitleGo false s.data)).data = pyTitleGo false s.data from rfl]
  rw [pyTitleGo_idem]

theorem pyLower_pyTitle (s : String) : pyLower (pyTitle s) = pyLower s := by
  unfold pyLower pyTitle
  rw [show (String.mk (pyTitleGo false s.data)).data = pyTitleGo false s.data from rfl]
  rw [map_downChar_pyTitleGo]

theorem pyTitleGo_nil_iff (b : Bool) (l : List Char) : pyTitleGo b l = [] ↔ l = [] := by
  cases l with
  | nil => simp [pyTitleGo]
  | cons c cs =>
    simp only [pyTitleGo]
    constructor
    · intro h
      split at h <;> cases h
    · intro h
      cases h

/-- Canonicalizing an already canonical type tag changes nothing. -/
theorem formatType_idem (t : Option PType) :
    _format_type (some (.s (_format_type t))) = _format_type t := by
  match t with
  | some .clsStr => rfl
  | some .clsInt => rfl
  | some .clsFloat => rfl
  | some .clsBool => rfl
  | some .clsDict => rfl
  | Option.none => rfl
  | some (.s st) =>
    show _format_type (some (.s (_format_type (some (.s st))))) = _format_type (some (.s st))
    by_cases hf : pyLower st = "file"
    · have : _format_type (some (.s st)) = "Bytes" := by
        simp [_format_type, pyStrOfType, hf]
      rw [this]
      rfl
    · by_cases hdt : pyLower st = "datetime"
      · have : _format_type (some (.s st)) = "DateTime" := by
          simp [_format_type, pyStrOfType, hf, hdt]
        rw [this]
        rfl
      · by_cases he : st = ""
        · subst he
          rfl
        · have hT : _format_type (some (.s st)) = pyTitle st := by
            simp [_format_type, pyStrOfType, hf, hdt, typeFalsy, he]
          rw [hT]
          have hne : pyTitle st ≠ "" := by
            intro hcon
            have : pyTitleGo false st.data = [] := congrArg String.data hcon
            rw [pyTitleGo_nil_iff] at this
            exact he (by
              cases st with
              | mk l => simp at this; simp [this])
          simp only [_format_type, pyStrOfType]
          rw [pyLower_pyTitle]
          rw [if_neg hf, if_neg hdt]
          have : typeFalsy (some (.s (pyTitle st))) = false := by
            simp [typeFalsy]
            intro hcon
            exact absurd hcon hne
          rw [this]
          simp only [if_false, Bool.false_eq_true]
          exact pyTitle_idem st

/-- `_validate_kwargness` depends only on the Parameter's `key` and
`is_kwarg` fields. -/
theorem validate_congr (sig : List SigParam) (p q : Parameter)
    (hk : q.key = p.key) (hik : q.is_kwarg = p.is_kwarg) :
    _validate_kwargness sig q = _validate_kwargness sig p := by
  unfold _validate_kwargness
  rw [hk, hik]

theorem dGet?_nil (k : String) : dGet? [] k = Option.none := rfl

theorem dGet?_cons (k' : String) (v' : Val) (rest : List (String × Val)) (k : String) :
    dGet? ((k', v') :: rest) k = if k' = k then some v' else dGet? rest k := by
  by_cases h : k' = k <;> simp [dGet?, List.find?, h]

theorem dGet?_append (a b : List (String × Val)) (k : String) :
    dGet? (a ++ b) k = match dGet? a k with
      | some v => some v
      | Option.none => dGet? b k := by
  induction a with
  | nil => simp [dGet?_nil]
  | cons kv rest ih =>
    obtain ⟨k', v'⟩ := kv
    by_cases h : k' = k <;> simp [dGet?_cons, h, ih]

theorem dSet_fresh (acc : List (String × Val)) (k : String) (v : Val)
    (h : dGet? acc k = Option.none) : dSet acc k v = acc ++ [(k, v)] := by
  induction acc with
  | nil => rfl
  | cons kv rest ih =>
    obtain ⟨k', v'⟩ := kv
    rw [dGet?_cons] at h
    by_cases hk : k' = k
    · rw [if_pos hk] at h
      cases h
    · rw [if_neg hk] at h
      simp [dSet, hk, ih h]

theorem synth_fold_eq (qs : List Parameter) (acc : List (String × Val))
    (hacc : ∀ c ∈ qs, c.default.truthy = true → dGet? acc (keyStr c) = Option.none)
    (hnd : (qs.map keyStr).Nodup) :
    qs.foldl (fun acc c => if c.default.truthy then dSet acc (keyStr c) c.default else acc)
        acc = acc ++ qs.filterMap synthEntry := by
  induction qs generalizing acc with
  | nil => simp
  | cons c rest ih =>
    rw [List.map_cons] at hnd
    obtain ⟨hhd, hnd'⟩ := List.nodup_cons.mp hnd
    by_cases ht : c.default.truthy = true
    · have hfresh := hacc c (List.mem_cons_self _ _) ht
      simp only [List.foldl_cons, if_pos ht]
      rw [dSet_fresh acc (keyStr c) c.default hfresh]
      rw [ih (acc ++ [(keyStr c, c.default)]) ?_ hnd']
      · simp [List.filterMap_cons, synthEntry, if_pos ht]
      · intro c' hc' ht'
        rw [dGet?_append]
        rw [hacc c' (List.mem_cons_of_mem _ hc') ht']
        have hne : keyStr c ≠ keyStr c' := by
          intro he
          exact hhd (he ▸ List.mem_map_of_mem keyStr hc')
        simp [dGet?_cons, dGet?_nil, hne]
    · have ht' : c.default.truthy = false := by
        cases hcd : c.default.truthy
        · rfl
        · exact absurd hcd ht
      simp only [List.foldl_cons, ht', if_false, Bool.false_eq_true]
      rw [ih acc (fun c' hc' htr => hacc c' (List.mem_cons_of_mem _ hc') htr) hnd']
      simp [List.filterMap_cons, synthEntry, ht']

theorem lookup_filterMap_notmem (qs : List Parameter) (k : String)
    (h : k ∉ qs.map keyStr) : dGet? (qs.filterMap synthEntry) k = Option.none := by
  induction qs with
  | nil => rfl
  | cons c rest ih =>
    rw [List.map_cons] at h
    have h1 : k ≠ keyStr c := fun he => h (he ▸ List.mem_cons_self _ _)
    have h2 : k ∉ rest.map keyStr := fun hm => h (List.mem_cons_of_mem _ hm)
    by_cases ht : c.default.truthy = true
    · simp only [List.filterMap_cons, synthEntry, if_pos ht]
      rw [dGet?_cons, if_neg (fun he => h1 he.symm)]
      exact ih h2
    · have ht' : c.default.truthy = false := by
        cases hcd : c.default.truthy
        · rfl
        · exact absurd hcd ht
      simp only [List.filterMap_cons, synthEntry, ht', if_false, Bool.false_eq_true]
      exact ih h2

theorem lookup_filterMap_hit (qs : List Parameter) (c : Parameter)
    (hnd : (qs.map keyStr).Nodup) (hc : c ∈ qs) (ht : c.default.truthy = true) :
    dGet? (qs.filterMap synthEntry) (keyStr c) = some c.default := by
  induction qs with
  | nil => cases hc
  | cons h rest ih =>
    rw [List.map_cons] at hnd
    obtain ⟨hhd, hnd'⟩ := List.nodup_cons.mp hnd
    rcases List.mem_cons.mp hc with rfl | hcrest
    · simp only [List.filterMap_cons, synthEntry, if_pos ht]
      rw [dGet?_cons, if_pos rfl]
    · have hne : keyStr h ≠ keyStr c := by
        intro he
        exact hhd (he ▸ List.mem_map_of_mem keyStr hcrest)
      by_cases hth : h.default.truthy = true
      · simp only [List.filterMap_cons, synthEntry, if_pos hth]
        rw [dGet?_cons, if_neg hne]
        exact ih hnd' hcrest
      · have hth' : h.default.truthy = false := by
          cases hcd : h.default.truthy
          · rfl
          · exact absurd hcd hth
        simp only [List.filterMap_cons, synthEntry, hth', if_false, Bool.false_eq_true]
        exact ih hnd' hcrest

theorem lookup_filterMap_miss (qs : List Parameter) (c : Parameter)
    (hnd : (qs.map keyStr).Nodup) (hc : c ∈ qs) (ht : c.default.truthy = false) :
    dGet? (qs.filterMap synthEntry) (keyStr c) = Option.none := by
  induction qs with
  | nil => cases hc
  | cons h rest ih =>
    rw [List.map_cons] at hnd
    obtain ⟨hhd, hnd'⟩ := List.nodup_cons.mp hnd
    rcases List.mem_cons.mp hc with rfl | hcrest
    · simp only [List.filterMap_cons, synthEntry, ht, if_false, Bool.false_eq_true]
      exact lookup_filterMap_notmem rest (keyStr c) hhd
    · have hne : keyStr h ≠ keyStr c := by
        intro he
        exact hhd (he ▸ List.mem_map_of_mem keyStr hcrest)
      by_cases hth : h.default.truthy = true
      · simp only [List.filterMap_cons, synthEntry, if_pos hth]
        rw [dGet?_cons, if_neg hne]
        exact ih hnd' hcrest
      · have hth' : h.default.truthy = false := by
          cases hcd : h.default.truthy
          · rfl
          · exact absurd hcd hth
        simp only [List.filterMap_cons, synthEntry, hth', if_false, Bool.false_eq_true]
        exact ih hnd' hcrest

/-! ### C9 -/

/-- C9 counterexample: normalizing the model-backed parameter `cxM` leaves
its `model` field set (the source never clears `param.model`), contradicting
the claim that the returned Parameter's model field is absent. -/
theorem claim_C9_counterexample :
    (_initialize_parameter 6 cxM Option.none).map Parameter.model
        = .ok (some [.param cxX, .param cxY]) ∧
      some [PItem.param cxX, PItem.param cxY] ≠ (Option.none : Option (List PItem)) :=
  ⟨rfl, nofun⟩

/-- C9 amended: for a model-backed Parameter, normalization consumes the
model's parameter list into the child `parameters` (so the result is
expanded), but the `model` reference itself is retained on the result, not
discarded. -/
theorem claim_C9 (fuel : Nat) (p : Parameter) (mitems : List PItem)
    (fn : Option (List SigParam)) (q : Parameter)
    (hps : p.parameters = []) (hm : p.model = some mitems)
    (h : _initialize_parameter (fuel+1) p fn = .ok q) :
    q.model = some mitems ∧
      ∃ qs, _generate_nested_params fuel mitems = .ok qs ∧ q.parameters = qs.map PItem.param := by
  rw [initParam_succ] at h
  simp only [hps, hm] at h
  split at h
  · exact absurd h (by simp)
  · split at h
    · exact absurd h (by simp)
    · split at h
      · exact absurd h (by simp)
      · split at h
        · exact absurd h (by simp)
        · rename_i qs hqs
          injection h with h'
          subst h'
          exact ⟨rfl, qs, hqs, rfl⟩

/-- C9 witness: the amended theorem applied to the concrete model-backed
parameter `cxM`. -/
theorem claim_C9_witness :
    cxM.model = some [.param cxX, .param cxY] ∧
      ∃ qs, _generate_nested_params 5 [.param cxX, .param cxY] = .ok qs ∧
        ((_initialize_parameter 6 cxM Option.none).toOption.getD cxM).parameters = qs.map PItem.param := by
  refine ⟨rfl, ?_⟩
  have h := claim_C9 5 cxM [.param cxX, .param cxY] Option.none
    ((_initialize_parameter 6 cxM Option.none).toOption.getD cxM) rfl rfl rfl
  exact h.2

/-! ### C3 -/

/-- C3 counterexample: the formal parameter `b` declares default `0`
(which `_validate_kwargness` duly returns), the declared Parameter has no
default, yet normalization leaves the Parameter's default unset — the
falsy formal default `0` is not adopted, contradicting the claim that the
formal default is adopted whatever its value is. -/
theorem claim_C3_counterexample :
    _validate_kwargness cxSigB0 cxB = .ok (.int 0) ∧
      (_initialize_parameter 6 cxB (some cxSigB0)).map Parameter.default = .ok Val.none ∧
      Val.none ≠ Val.int 0 :=
  ⟨rfl, rfl, nofun⟩

/-- C3 amended: the formal parameter's default is adopted only when it is
truthy: if kwarg validation returns a truthy formal default `v`, the
Parameter's own default is unset, and the canonical type is not Base64,
then the normalized Parameter's default is `v`. -/
theorem claim_C3 (fuel : Nat) (sig : List SigParam) (p q : Parameter) (v : Val)
    (hv : _validate_kwargness sig p = .ok v) (htr : v.truthy = true)
    (hd : p.default = Val.none) (hb : _format_type p.type ≠ "Base64")
    (h : _initialize_parameter (fuel+1) p (some sig) = .ok q) :
    q.default = v := by
  rw [initParam_succ] at h
  simp only [hv, hd, htr, Bool.true_and, if_true, if_neg hb] at h
  split at h
  · exact absurd h (by simp)
  · split at h
    · exact absurd h (by simp)
    · split at h
      · split at h
        · exact absurd h (by simp)
        · injection h with h'
          subst h'
          rfl
      · split at h
        · split at h
          · exact absurd h (by simp)
          · injection h with h'
            subst h'
            simp [Parameter.default]
        · injection h with h'
          subst h'
          rfl

/-- C3 witness: a truthy formal default (5) is adopted, per the amended
theorem applied at a concrete signature and Parameter. -/
theorem claim_C3_witness :
    ((_initialize_parameter 6 cxB (some [⟨"b", .positionalOrKeyword, some (.int 5)⟩])).toOption.getD
        cxB).default = Val.int 5 :=
  claim_C3 5 [⟨"b", .positionalOrKeyword, some (.int 5)⟩] cxB _ (.int 5) rfl rfl rfl
    (by decide) rfl

/-! ### C4 -/

/-- C4 counterexample: the declared Parameter `b` has `optional` unset and
matches the formal parameter `b = 5`, which declares a default; the merge
loop nevertheless sets `optional = false`, contradicting the claim that a
declared Parameter matching a defaulted formal keeps `optional` unset. -/
theorem claim_C4_counterexample :
    sigLoop cxSigB5 [cxB] = [setOptional cxB false] ∧
      (setOptional cxB false).optional = some false ∧
      some false ≠ (Option.none : Option Bool) :=
  ⟨rfl, rfl, nofun⟩

/-- C4 amended: during signature merging, every declared Parameter with
unset `optional` whose key matches any formal parameter — whether or not
that formal declares a default — has `optional` forced to `false` in the
merged list (assuming the declared keys are distinct, the result contains
the updated Parameter). -/
theorem claim_C4 (sig : List SigParam) (ps : List Parameter) (p : Parameter)
    (hnd : (ps.map Parameter.key).Nodup) (hp : p ∈ ps) (ho : p.optional = Option.none)
    (ha : ∃ a ∈ sig, some a.name = p.key) :
    setOptional p false ∈ sigLoop sig ps := by
  induction sig generalizing ps with
  | nil =>
    obtain ⟨a, ha', _⟩ := ha
    cases ha'
  | cons a rest ih =>
    rw [sigLoop_cons]
    by_cases hmatch : some a.name = p.key
    · have hcont : (ps.map Parameter.key).contains (some a.name) = true := by
        rw [hmatch]
        simpa using List.mem_map_of_mem Parameter.key hp
      rw [if_pos hcont]
      refine mem_sigLoop_stable rest (setOptFirst_hit hnd hp hmatch.symm ho) ?_
      simp [setOptional_optional]
    · obtain ⟨a', ha', hk⟩ := ha
      rcases List.mem_cons.mp ha' with rfl | harest
      · exact absurd hk hmatch
      · by_cases hc : (ps.map Parameter.key).contains (some a.name) = true
        · rw [if_pos hc]
          refine ih _ ?_ (mem_setOptFirst_of_ne hp (fun he => hmatch he.symm)) ⟨a', harest, hk⟩
          rwa [setOptFirst_keys]
        · rw [if_neg hc]
          refine ih _ ?_ (List.mem_append_left _ hp) ⟨a', harest, hk⟩
          have hnm : some a.name ∉ ps.map Parameter.key := fun hmem => hc (by simpa using hmem)
          simp only [List.map_append, List.map_cons, List.map_nil]
          refine List.Nodup.append hnd (List.nodup_singleton _) ?_
          intro x hx hxx
          have hxe : x = (freshParam a.name).key := List.mem_singleton.mp hxx
          rw [hxe] at hx
          exact hnm hx

/-- C4 witness: the amended theorem at a required (non-defaulted) formal
parameter `b` and a declared Parameter `b` with unset optional. -/
theorem claim_C4_witness :
    setOptional cxB false ∈ sigLoop [⟨"b", .positionalOrKeyword, Option.none⟩] [cxB] :=
  claim_C4 [⟨"b", .positionalOrKeyword, Option.none⟩] [cxB] cxB (by simp)
    (List.mem_singleton.mpr rfl) rfl ⟨⟨"b", .positionalOrKeyword, Option.none⟩, by simp, rfl⟩

theorem setDefault_self (p : Parameter) : setDefault p p.default = p := by
  cases p
  rfl

theorem plain_setDefault {p : Parameter} (v : Val) (hp : Plain p) : Plain (setDefault p v) := by
  cases hp with
  | mk _ hch hpi hpc hmi hmc => exact Plain.mk _ hch hpi hpc hmi hmc

/-- Giving a source callable to `_initialize_parameter` is the same as
pre-adopting the signature default on the Parameter and normalizing
without a callable. -/
theorem initParam_fn_eq (fuel : Nat) (p : Parameter) (sig : List SigParam) (fd : Val)
    (hv : _validate_kwargness sig p = .ok fd) :
    _initialize_parameter (fuel+1) p (some sig) =
      _initialize_parameter (fuel+1)
        (setDefault p (if fd.truthy && (match p.default with
            | Val.none => true
            | _ => false) then fd else p.default)) Option.none := by
  rw [initParam_succ, initParam_succ]
  cases p with
  | mk k t mu dn o d de ch ps nu mx mn rg fit ti ik mo =>
    dsimp only [setDefault] at *
    rw [hv]
    rfl

/-- A successful top-level normalization yields the signature-validation
result for its Parameter. -/
theorem initParam_validate_ok (fuel : Nat) (p : Parameter) (sig : List SigParam)
    (q : Parameter) (h : _initialize_parameter (fuel+1) p (some sig) = .ok q) :
    ∃ fd, _validate_kwargness sig p = .ok fd := by
  rw [initParam_succ] at h
  dsimp only at h
  repeat any_goals split at h
  any_goals exact Except.noConfusion h
  all_goals
    rename _validate_kwargness sig p = Except.ok _ => hv
  all_goals exact ⟨_, hv⟩

/-- Normalization without a callable keeps a present default present
(unless the declared type is the Base64 tag). -/
theorem initParam_default_ne_none (fuel : Nat) (p q : Parameter)
    (hd : p.default ≠ Val.none) (hB : _format_type p.type ≠ "Base64")
    (h : _initialize_parameter fuel p Option.none = .ok q) :
    q.default ≠ Val.none := by
  cases fuel with
  | zero => exact Except.noConfusion h
  | succ fuel =>
    rw [initParam_succ] at h
    dsimp only at h
    have hmn : (match p.default with
        | Val.none => true
        | _ => false) = false := by
      cases hpd : p.default
      · exact absurd hpd hd
      all_goals rfl
    simp only [hmn, Bool.and_false, Bool.false_eq_true, if_false, if_neg hB] at h
    repeat any_goals split at h
    any_goals exact Except.noConfusion h
    all_goals injection h with h'
    all_goals subst h'
    all_goals simp only [Parameter.default]
    any_goals exact hd
    all_goals intro hcon
    all_goals cases hcon

/-- Normalization never changes a Parameter's key, optional flag, kwarg
flag, multi flag, nullable flag, or model reference. -/
theorem initParam_fields (fuel : Nat) (p : Parameter) (fn : Option (List SigParam))
    (q : Parameter) (h : _initialize_parameter fuel p fn = .ok q) :
    q.key = p.key ∧ q.optional = p.optional ∧ q.is_kwarg = p.is_kwarg ∧
      q.multi = p.multi ∧ q.nullable = p.nullable ∧ q.model = p.model := by
  cases fuel with
  | zero => exact Except.noConfusion h
  | succ fuel =>
    rw [initParam_succ] at h
    dsimp only at h
    repeat any_goals split at h
    any_goals exact Except.noConfusion h
    all_goals injection h with h'
    all_goals subst h'
    all_goals exact ⟨rfl, rfl, rfl, rfl, rfl, rfl⟩

theorem format_choices_cnone : _format_choices ChoiceSpec.cnone = .ok Option.none := rfl

theorem formatDictionary : _format_type (some (PType.s "Dictionary")) = "Dictionary" := rfl

theorem truthy_none : Val.truthy Val.none = false := rfl

theorem genN_nil (fuel : Nat) : _generate_nested_params fuel [] = .ok [] := by
  cases fuel <;> rfl

/-- Normalizing without a source callable is idempotent on the plain
fragment (no choices, no deprecated model-class entries), and plainness is
preserved; likewise for nested-parameter lists. -/
theorem initIdem_none (fuel : Nat) :
    (∀ (p q : Parameter), Plain p → _initialize_parameter fuel p Option.none = .ok q →
      Plain q ∧ _initialize_parameter fuel q Option.none = .ok q) ∧
    (∀ (items : List PItem) (qs : List Parameter), PlainItems items →
      _generate_nested_params fuel items = .ok qs →
      qs.length = items.length ∧ PlainItems (qs.map PItem.param) ∧
        _generate_nested_params fuel (qs.map PItem.param) = .ok qs) := by
  induction fuel with
  | zero =>
    constructor
    · intro p q _ h
      exact Except.noConfusion h
    · intro items qs _ h
      cases items with
      | nil =>
        injection h with h'
        subst h'
        exact ⟨rfl, ⟨nofun, nofun⟩, rfl⟩
      | cons i rest => exact Except.noConfusion h
  | succ fuel ih =>
    constructor
    · intro p q hp h
      obtain ⟨k, t, mu, dn, o, d, de, ch, ps, nu, mx, mn, rg, fit, ti, ik, mo⟩ := p
      cases hp with
      | mk _ hch hpi hpc hmi hmc =>
        simp only [Parameter.choices] at hch
        subst hch
        simp only [Parameter.parameters] at hpi hpc
        simp only [Parameter.model] at hmi hmc
        rw [initParam_succ] at h
        simp only [Parameter.key, Parameter.type, Parameter.multi, Parameter.display_name,
          Parameter.optional, Parameter.default, Parameter.description, Parameter.choices,
          Parameter.parameters, Parameter.nullable, Parameter.maximum, Parameter.minimum,
          Parameter.regex, Parameter.form_input_type, Parameter.type_info, Parameter.is_kwarg,
          Parameter.model] at h
        simp only [format_choices_cnone, truthy_none, Bool.false_and, Bool.false_eq_true,
          if_false] at h
        split at h
        · exact Except.noConfusion h
        · rename_i xk kv
          split at h
          case h_1 i rest =>
            split at h
            · exact Except.noConfusion h
            · rename_i qs0 hgen
              injection h with h'
              subst h'
              obtain ⟨hlen, hPI, hgen2⟩ := ih.2 (i :: rest) qs0 ⟨hpi, hpc⟩ hgen
              cases qs0 with
              | nil => exact absurd hlen (by simp)
              | cons q1 qs1 =>
                constructor
                · exact Plain.mk _ rfl hPI.1 hPI.2 (fun l hl => hmi l hl) (fun l hl => hmc l hl)
                · rw [initParam_succ]
                  simp only [Parameter.key, Parameter.type, Parameter.multi, Parameter.display_name,
                    Parameter.optional, Parameter.default, Parameter.description,
                    Parameter.choices, Parameter.parameters, Parameter.nullable,
                    Parameter.maximum, Parameter.minimum, Parameter.regex,
                    Parameter.form_input_type, Parameter.type_info, Parameter.is_kwarg,
                    Parameter.model]
                  simp only [format_choices_cnone, truthy_none, Bool.false_and,
                    Bool.false_eq_true, if_false, List.map_cons]
                  simp only [List.map_cons] at hgen2
                  rw [hgen2, formatDictionary]
                  rw [if_neg (by decide : ¬("Dictionary" : String) = "Bytes")]
                  rw [if_neg (by decide : ¬("Dictionary" : String) = "Base64")]
                  rfl
          case h_2 =>
            split at h
            case h_1 mitems =>
              split at h
              · exact Except.noConfusion h
              · rename_i qs0 hgen
                injection h with h'
                subst h'
                obtain ⟨hlen, hPI, hgen2⟩ := ih.2 mitems qs0
                  ⟨hmi mitems rfl, hmc mitems rfl⟩ hgen
                constructor
                · exact Plain.mk _ rfl hPI.1 hPI.2 (fun l hl => hmi l hl) (fun l hl => hmc l hl)
                · cases qs0 with
                  | nil =>
                    have hm0 : mitems = [] := by
                      cases mitems with
                      | nil => rfl
                      | cons a b => exact absurd hlen (by simp)
                    subst hm0
                    rw [initParam_succ]
                    simp only [Parameter.key, Parameter.type, Parameter.multi, Parameter.display_name,
                    Parameter.optional, Parameter.default, Parameter.description,
                    Parameter.choices, Parameter.parameters, Parameter.nullable,
                    Parameter.maximum, Parameter.minimum, Parameter.regex,
                    Parameter.form_input_type, Parameter.type_info, Parameter.is_kwarg,
                    Parameter.model]
                    simp only [format_choices_cnone, truthy_none, Bool.false_and,
                      Bool.false_eq_true, if_false, List.map_nil]
                    rw [formatDictionary]
                    rw [if_neg (by decide : ¬("Dictionary" : String) = "Bytes")]
                    rw [if_neg (by decide : ¬("Dictionary" : String) = "Base64")]
                    simp only [genN_nil]
                    by_cases hcond :
                        (!truthyOpt nu &&
                          !(if _format_type t = "Base64" then Val.none else d).truthy) = true
                    · rw [if_pos hcond]
                      have hnul : (!truthyOpt nu) = true := by
                        cases hx : (!truthyOpt nu)
                        · rw [hx, Bool.false_and] at hcond
                          exact absurd hcond (by simp)
                        · rfl
                      have hagain : (!truthyOpt nu && !(synthDefault []).truthy) = true := by
                        rw [hnul]
                        rfl
                      rw [if_pos hagain]
                      rfl
                    · rw [if_neg hcond]
                      rw [if_neg hcond]
                      rfl
                  | cons q1 qs1 =>
                    rw [initParam_succ]
                    simp only [Parameter.key, Parameter.type, Parameter.multi, Parameter.display_name,
                    Parameter.optional, Parameter.default, Parameter.description,
                    Parameter.choices, Parameter.parameters, Parameter.nullable,
                    Parameter.maximum, Parameter.minimum, Parameter.regex,
                    Parameter.form_input_type, Parameter.type_info, Parameter.is_kwarg,
                    Parameter.model]
                    simp only [format_choices_cnone, truthy_none, Bool.false_and,
                      Bool.false_eq_true, if_false, List.map_cons]
                    simp only [List.map_cons] at hgen2
                    rw [hgen2, formatDictionary]
                    rw [if_neg (by decide : ¬("Dictionary" : String) = "Bytes")]
                    rw [if_neg (by decide : ¬("Dictionary" : String) = "Base64")]
                    rfl
            case h_2 =>
              injection h with h'
              subst h'
              constructor
              · exact Plain.mk _ rfl nofun nofun nofun nofun
              · rw [initParam_succ]
                simp only [Parameter.key, Parameter.type, Parameter.multi, Parameter.display_name,
                    Parameter.optional, Parameter.default, Parameter.description,
                    Parameter.choices, Parameter.parameters, Parameter.nullable,
                    Parameter.maximum, Parameter.minimum, Parameter.regex,
                    Parameter.form_input_type, Parameter.type_info, Parameter.is_kwarg,
                    Parameter.model]
                simp only [format_choices_cnone, truthy_none, Bool.false_and,
                  Bool.false_eq_true, if_false]
                rw [formatType_idem]
                by_cases hby : _format_type t = "Bytes"
                · rw [if_pos hby, if_pos hby]
                  rw [if_neg (hby ▸ (by decide : ¬("Bytes" : String) = "Base64"))]
                · rw [if_neg hby, if_neg hby]
                  by_cases hb64 : _format_type t = "Base64"
                  · rw [if_pos hb64, if_pos hb64]
                  · rw [if_neg hb64, if_neg hb64]
    · intro items qs hPI h
      cases items with
      | nil =>
        injection h with h'
        subst h'
        exact ⟨rfl, ⟨nofun, nofun⟩, rfl⟩
      | cons i rest =>
        cases i with
        | param c =>
          simp only [_generate_nested_params] at h
          split at h
          · exact Except.noConfusion h
          · split at h
            · exact Except.noConfusion h
            · injection h with h'
              subst h'
              rename _initialize_parameter fuel c Option.none = Except.ok _ => hq1
              rename _generate_nested_params fuel rest = Except.ok _ => hqs1
              obtain ⟨hPq1, hq1b⟩ := ih.1 c _ (hPI.2 c (List.mem_cons_self _ _)) hq1
              obtain ⟨hlen1, hPI1, hgenb⟩ := ih.2 rest _
                ⟨fun i hi => hPI.1 i (List.mem_cons_of_mem _ hi),
                 fun c' hc' => hPI.2 c' (List.mem_cons_of_mem _ hc')⟩ hqs1
              refine ⟨by simp [hlen1], ?_, ?_⟩
              · constructor
                · intro i hi
                  rcases List.mem_cons.mp hi with rfl | hir
                  · trivial
                  · exact hPI1.1 i hir
                · intro c' hc'
                  rcases List.mem_cons.mp hc' with he | hir
                  · injection he with he'
                    exact he' ▸ hPq1
                  · exact hPI1.2 c' hir
              · simp only [List.map_cons, _generate_nested_params]
                rw [hq1b, hgenb]
        | modelObj ps => exact absurd (hPI.1 _ (List.mem_cons_self _ _)) nofun
        | junk r => exact absurd (hPI.1 _ (List.mem_cons_self _ _)) nofun

/-- Top-level (with-callable) idempotence, by reduction to the
callable-free case through `initParam_fn_eq`. -/
theorem initIdem_fn (fuel : Nat) (p q : Parameter) (sig : List SigParam)
    (hp : Plain p) (hB : _format_type p.type ≠ "Base64")
    (h : _initialize_parameter fuel p (some sig) = .ok q) :
    Plain q ∧ _initialize_parameter fuel q (some sig) = .ok q := by
  cases fuel with
  | zero => exact Except.noConfusion h
  | succ fuel =>
    obtain ⟨fd, hv⟩ := initParam_validate_ok fuel p sig q h
    rw [initParam_fn_eq fuel p sig fd hv] at h
    obtain ⟨hPq, hq2⟩ := (initIdem_none (fuel+1)).1 _ q (plain_setDefault _ hp) h
    have hfields := initParam_fields (fuel+1) _ Option.none q h
    have hkey : q.key = p.key := hfields.1
    have hik : q.is_kwarg = p.is_kwarg := hfields.2.2.1
    have hvq : _validate_kwargness sig q = .ok fd := by
      rw [validate_congr sig p q hkey hik]
      exact hv
    refine ⟨hPq, ?_⟩
    rw [initParam_fn_eq fuel q sig fd hvq]
    have hqd : (if fd.truthy && (match q.default with
        | Val.none => true
        | _ => false) then fd else q.default) = q.default := by
      cases hft : fd.truthy with
      | false => simp
      | true =>
        have hdne : q.default ≠ Val.none := by
          refine initParam_default_ne_none (fuel+1)
            (setDefault p (if fd.truthy && (match p.default with
              | Val.none => true
              | _ => false) then fd else p.default)) q ?_ hB h
          show (if fd.truthy && (match p.default with
              | Val.none => true
              | _ => false) then fd else p.default) ≠ Val.none
          rw [hft]
          cases hpd : p.default
          case none =>
            intro hcon
            have hfd : fd = Val.none := hcon
            rw [hfd] at hft
            simp [Val.truthy] at hft
          all_goals exact fun hcon => Val.noConfusion hcon
        have hmz : (match q.default with
            | Val.none => true
            | _ => false) = false := by
          cases hqd0 : q.default
          · exact absurd hqd0 hdne
          all_goals rfl
        rw [hmz]
        simp
    rw [hqd, setDefault_self]
    exact hq2

theorem setOptional_type (p : Parameter) (b : Bool) : (setOptional p b).type = p.type := rfl

theorem plain_setOptional {p : Parameter} (b : Bool) (hp : Plain p) :
    Plain (setOptional p b) := by
  cases hp with
  | mk _ hch hpi hpc hmi hmc => exact Plain.mk _ hch hpi hpc hmi hmc

theorem plain_freshParam (n : String) : Plain (freshParam n) :=
  Plain.mk _ rfl nofun nofun nofun nofun

theorem setOptFirst_noop {k : String} {ps : List Parameter}
    (h : ∀ p ∈ ps, p.key = some k → p.optional ≠ Option.none) : setOptFirst k ps = ps := by
  induction ps with
  | nil => rfl
  | cons hd t ih =>
    simp only [setOptFirst]
    by_cases hk : hd.key = some k
    · rw [if_pos hk]
      rw [if_neg (h hd (List.mem_cons_self _ _) hk)]
    · rw [if_neg hk]
      rw [ih (fun p hp hpk => h p (List.mem_cons_of_mem _ hp) hpk)]

theorem sigLoop_noop {sig : List SigParam} {ps : List Parameter}
    (hcov : ∀ a ∈ sig, some a.name ∈ ps.map Parameter.key)
    (hopt : ∀ a ∈ sig, ∀ p ∈ ps, p.key = some a.name → p.optional ≠ Option.none) :
    sigLoop sig ps = ps := by
  induction sig with
  | nil => rfl
  | cons a rest ih =>
    rw [sigLoop_cons]
    have hc : (ps.map Parameter.key).contains (some a.name) = true := by
      simpa using hcov a (List.mem_cons_self _ _)
    rw [if_pos hc, setOptFirst_noop (hopt a (List.mem_cons_self _ _))]
    exact ih (fun a' ha' => hcov a' (List.mem_cons_of_mem _ ha'))
      (fun a' ha' => hopt a' (List.mem_cons_of_mem _ ha'))

theorem mem_setOptFirst_src {k : String} {ps : List Parameter} {p' : Parameter}
    (h : p' ∈ setOptFirst k ps) : p' ∈ ps ∨ ∃ p ∈ ps, p' = setOptional p false := by
  induction ps with
  | nil => cases h
  | cons hd t ih =>
    simp only [setOptFirst] at h
    by_cases hk : hd.key = some k
    · rw [if_pos hk] at h
      rcases List.mem_cons.mp h with he | hmem
      · by_cases ho : hd.optional = Option.none
        · rw [if_pos ho] at he
          exact Or.inr ⟨hd, List.mem_cons_self _ _, he⟩
        · rw [if_neg ho] at he
          rw [he]
          exact Or.inl (List.mem_cons_self _ _)
      · exact Or.inl (List.mem_cons_of_mem _ hmem)
    · rw [if_neg hk] at h
      rcases List.mem_cons.mp h with he | hmem
      · rw [he]
        exact Or.inl (List.mem_cons_self _ _)
      · rcases ih hmem with hl | ⟨p, hp, he⟩
        · exact Or.inl (List.mem_cons_of_mem _ hl)
        · exact Or.inr ⟨p, List.mem_cons_of_mem _ hp, he⟩

theorem mem_sigLoop_src {sig : List SigParam} {ps : List Parameter} {p' : Parameter}
    (h : p' ∈ sigLoop sig ps) :
    p' ∈ ps ∨ (∃ p ∈ ps, p' = setOptional p false) ∨ ∃ n, p' = freshParam n := by
  induction sig generalizing ps with
  | nil => exact Or.inl h
  | cons a rest ih =>
    rw [sigLoop_cons] at h
    split at h
    · rcases ih h with hl | ⟨p, hp, he⟩ | hr
      · rcases mem_setOptFirst_src hl with h1 | ⟨p, hp, he⟩
        · exact Or.inl h1
        · exact Or.inr (Or.inl ⟨p, hp, he⟩)
      · rcases mem_setOptFirst_src hp with h1 | ⟨p0, hp0, he0⟩
        · exact Or.inr (Or.inl ⟨p, h1, he⟩)
        · subst he0
          refine Or.inr (Or.inl ⟨p0, hp0, ?_⟩)
          rw [he]
          cases p0
          rfl
      · exact Or.inr (Or.inr hr)
    · rcases ih h with hl | ⟨p, hp, he⟩ | hr
      · rcases List.mem_append.mp hl with h1 | h2
        · exact Or.inl h1
        · exact Or.inr (Or.inr ⟨a.name, List.mem_singleton.mp h2⟩)
      · rcases List.mem_append.mp hp with h1 | h2
        · exact Or.inr (Or.inl ⟨p, h1, he⟩)
        · refine Or.inr (Or.inr ⟨a.name, ?_⟩)
          rw [he, List.mem_singleton.mp h2]
          rfl
      · exact Or.inr (Or.inr hr)

theorem setOptFirst_sets {k : String} {ps : List Parameter}
    (hnd : (ps.map Parameter.key).Nodup) :
    ∀ p' ∈ setOptFirst k ps, p'.key = some k → p'.optional ≠ Option.none := by
  induction ps with
  | nil => intro p' h; cases h
  | cons hd t ih =>
    rw [List.map_cons] at hnd
    obtain ⟨hhd, hnd'⟩ := List.nodup_cons.mp hnd
    intro p' hp' hpk
    simp only [setOptFirst] at hp'
    by_cases hk : hd.key = some k
    · rw [if_pos hk] at hp'
      rcases List.mem_cons.mp hp' with he | hmem
      · by_cases ho : hd.optional = Option.none
        · rw [if_pos ho] at he
          rw [he]
          simp [setOptional_optional]
        · rw [if_neg ho] at he
          rw [he]
          exact ho
      · exfalso
        have : p'.key ∈ t.map Parameter.key := List.mem_map_of_mem _ hmem
        rw [hpk, ← hk] at this
        exact hhd this
    · rw [if_neg hk] at hp'
      rcases List.mem_cons.mp hp' with he | hmem
      · rw [he] at hpk
        exact absurd hpk hk
      · exact ih hnd' p' hmem hpk

theorem sigLoop_opt_preserve {sig : List SigParam} {ps : List Parameter} {n : String}
    (h : ∀ p ∈ ps, p.key = some n → p.optional ≠ Option.none) :
    ∀ p' ∈ sigLoop sig ps, p'.key = some n → p'.optional ≠ Option.none := by
  intro p' hp' hpk
  rcases mem_sigLoop_src hp' with hl | ⟨p, _, he⟩ | ⟨m, he⟩
  · exact h p' hl hpk
  · rw [he]
    simp [setOptional_optional]
  · rw [he]
    simp [freshParam, Parameter.optional]

theorem sigLoop_opt_set {sig : List SigParam} {ps : List Parameter}
    (hnd : (ps.map Parameter.key).Nodup) :
    ∀ a ∈ sig, ∀ p' ∈ sigLoop sig ps, p'.key = some a.name → p'.optional ≠ Option.none := by
  induction sig generalizing ps with
  | nil => intro a ha; cases ha
  | cons a rest ih =>
    intro a' ha' p' hp' hpk
    rw [sigLoop_cons] at hp'
    rcases List.mem_cons.mp ha' with rfl | harest
    · -- a' is the head: after its step every key-a'.name element has optional set,
      -- and the rest of the loop preserves that.
      revert hp'
      split
      · intro hp'
        exact sigLoop_opt_preserve (setOptFirst_sets hnd) p' hp' hpk
      · intro hp'
        rename_i hc
        refine sigLoop_opt_preserve ?_ p' hp' hpk
        intro p hp hpk2
        rcases List.mem_append.mp hp with h1 | h2
        · exfalso
          have : some a'.name ∈ ps.map Parameter.key := hpk2 ▸ List.mem_map_of_mem _ h1
          exact hc (by simpa using this)
        · rw [List.mem_singleton.mp h2]
          simp [freshParam, Parameter.optional]
    · revert hp'
      split
      · intro hp'
        exact ih (by rwa [setOptFirst_keys]) a' harest p' hp' hpk
      · intro hp'
        rename_i hc
        refine ih ?_ a' harest p' hp' hpk
        have hnm : some a.name ∉ ps.map Parameter.key := fun hmem => hc (by simpa using hmem)
        simp only [List.map_append, List.map_cons, List.map_nil]
        refine List.Nodup.append hnd (List.nodup_singleton _) ?_
        intro x hx hxx
        have hxe : x = (freshParam a.name).key := List.mem_singleton.mp hxx
        rw [hxe] at hx
        exact hnm hx

theorem sigLoop_keys_mono {sig : List SigParam} {ps : List Parameter} {x : Option String}
    (h : x ∈ ps.map Parameter.key) : x ∈ (sigLoop sig ps).map Parameter.key := by
  induction sig generalizing ps with
  | nil => exact h
  | cons a rest ih =>
    rw [sigLoop_cons]
    split
    · exact ih (by rwa [setOptFirst_keys])
    · exact ih (by simp only [List.map_append]; exact List.mem_append_left _ h)

theorem sigLoop_covers {sig : List SigParam} {ps : List Parameter} :
    ∀ a ∈ sig, some a.name ∈ (sigLoop sig ps).map Parameter.key := by
  induction sig generalizing ps with
  | nil => intro a ha; cases ha
  | cons a rest ih =>
    intro a' ha'
    rw [sigLoop_cons]
    rcases List.mem_cons.mp ha' with rfl | harest
    · split
      · rename_i hc
        apply sigLoop_keys_mono
        rw [setOptFirst_keys]
        simpa using hc
      · apply sigLoop_keys_mono
        simp [freshParam, Parameter.key]
    · split
      · exact ih a' harest
      · exact ih a' harest

theorem setOptFirst_length (k : String) (ps : List Parameter) :
    (setOptFirst k ps).length = ps.length := by
  have h := congrArg List.length (setOptFirst_keys k ps)
  simpa using h

theorem sigLoop_length_ge (sig : List SigParam) (ps : List Parameter) :
    ps.length ≤ (sigLoop sig ps).length := by
  induction sig generalizing ps with
  | nil => exact Nat.le_refl _
  | cons a rest ih =>
    rw [sigLoop_cons]
    split
    · calc ps.length = (setOptFirst a.name ps).length := (setOptFirst_length _ _).symm
        _ ≤ _ := ih _
    · calc ps.length ≤ (ps ++ [freshParam a.name]).length := by simp
        _ ≤ _ := ih _

theorem initAll_members (fuel : Nat) (sig : List SigParam) (ps qs : List Parameter)
    (h : initAll fuel sig ps = .ok qs) :
    qs.length = ps.length ∧
      ∀ q' ∈ qs, ∃ p ∈ ps, _initialize_parameter fuel p (some sig) = .ok q' := by
  induction ps generalizing qs with
  | nil =>
    injection h with h'
    subst h'
    exact ⟨rfl, nofun⟩
  | cons p rest ih =>
    simp only [initAll] at h
    split at h
    · exact Except.noConfusion h
    · split at h
      · exact Except.noConfusion h
      · injection h with h'
        subst h'
        rename _initialize_parameter fuel p (some sig) = Except.ok _ => hq
        rename initAll fuel sig rest = Except.ok _ => hqs
        obtain ⟨hlen, hmem⟩ := ih _ hqs
        refine ⟨by simp [hlen], ?_⟩
        intro q' hq'
        rcases List.mem_cons.mp hq' with rfl | hmem2
        · exact ⟨p, List.mem_cons_self _ _, hq⟩
        · obtain ⟨p0, hp0, he0⟩ := hmem q' hmem2
          exact ⟨p0, List.mem_cons_of_mem _ hp0, he0⟩

theorem initAll_idem (fuel : Nat) (sig : List SigParam) (ps : List Parameter)
    (h : ∀ p ∈ ps, _initialize_parameter fuel p (some sig) = .ok p) :
    initAll fuel sig ps = .ok ps := by
  induction ps with
  | nil => rfl
  | cons p rest ih =>
    simp only [initAll]
    rw [h p (List.mem_cons_self _ _), ih (fun p' hp' => h p' (List.mem_cons_of_mem _ hp'))]

/-! ### C5 -/

/-- C5 counterexample: normalizing a Parameter with a choices
specification succeeds, but normalizing the result again fails — the
resolved Choices object stored in `choices` is not a string, mapping or
iterable, so `_format_choices` raises — contradicting the claim that
normalization is idempotent and the choices specification is accepted
again. -/
theorem claim_C5_counterexample :
    (_initialize_parameter 6 cxK Option.none).toOption.isSome = true ∧
      (do
        let q ← _initialize_parameter 6 cxK Option.none
        _initialize_parameter 6 q Option.none)
        = .error (.pluginParamError
            "Invalid 'choices': must be a string, dictionary, or iterable.") :=
  ⟨rfl, rfl⟩

/-- C5 amended: normalization is idempotent on the plain fragment —
Parameters without any choices specification, without deprecated
model-class entries in parameter lists, and whose canonical type tag is
not Base64: renormalizing a normalized Parameter succeeds and returns it
unchanged.  (A Parameter with resolved choices fails renormalization; a
nested Base64 Parameter with an adopted signature default is
re-defaulted.) -/
theorem claim_C5 (fuel : Nat) (p q : Parameter) (fn : Option (List SigParam))
    (hp : Plain p) (hB : _format_type p.type ≠ "Base64")
    (h : _initialize_parameter fuel p fn = .ok q) :
    _initialize_parameter fuel q fn = .ok q := by
  cases fn with
  | none => exact ((initIdem_none fuel).1 p q hp h).2
  | some sig => exact (initIdem_fn fuel p q sig hp hB h).2

/-- C5 witness: the amended idempotence at a concrete plain Parameter. -/
theorem claim_C5_witness :
    _initialize_parameter 6 ((_initialize_parameter 6 cxB Option.none).toOption.getD cxB)
        Option.none
      = .ok ((_initialize_parameter 6 cxB Option.none).toOption.getD cxB) :=
  claim_C5 6 cxB _ Option.none (Plain.mk _ rfl nofun nofun nofun nofun) (by decide) rfl

/-! ### C1 -/

/-- C1 counterexample: the claim says the synthesized model default
contains every child that declares a non-absent default, including
children whose declared default is falsy (0, False, "").  The child `z`
of `cxMZ` declares the non-absent default `0`, yet the synthesized
default mapping is empty — the loop is guarded by
`if nested_param.default:`, so a falsy declared default is omitted, not
included. -/
theorem claim_C1_counterexample :
    cxZ.default = Val.int 0 ∧ Val.int 0 ≠ Val.none ∧
    (_initialize_parameter 6 cxMZ Option.none).map Parameter.default = .ok (.dict []) ∧
    (Val.dict [] : Val) ≠ .dict [("z", .int 0)] := by
  refine ⟨rfl, nofun, rfl, ?_⟩
  intro h
  injection h with h'
  exact List.noConfusion h'

/-- C1 amended: for a model-backed Parameter that is not nullable and has
no explicit default, the synthesized default mapping contains exactly the
normalized children whose own default is truthy, each mapped to that
default; children whose default is absent — or declared but falsy (0,
False, "") — are omitted rather than included. -/
theorem claim_C1 (fuel : Nat) (p : Parameter) (mitems : List PItem) (q : Parameter)
    (qs : List Parameter)
    (hps : p.parameters = []) (hm : p.model = some mitems)
    (hnul : truthyOpt p.nullable = false) (hd : p.default = Val.none)
    (h : _initialize_parameter (fuel+1) p Option.none = .ok q)
    (hqs : _generate_nested_params fuel mitems = .ok qs)
    (hnd : (qs.map keyStr).Nodup) :
    q.parameters = qs.map PItem.param ∧
      q.default = .dict (qs.filterMap synthEntry) ∧
      (∀ c ∈ qs, c.default.truthy = true →
        dGet? (qs.filterMap synthEntry) (keyStr c) = some c.default) ∧
      (∀ c ∈ qs, c.default.truthy = false →
        dGet? (qs.filterMap synthEntry) (keyStr c) = Option.none) ∧
      (∀ kv ∈ qs.filterMap synthEntry, ∃ c ∈ qs,
        c.default.truthy = true ∧ kv = (keyStr c, c.default)) := by
  have hsynth : synthDefault qs = .dict (qs.filterMap synthEntry) := by
    unfold synthDefault
    rw [synth_fold_eq qs [] (fun c _ _ => dGet?_nil _) hnd]
    simp
  rw [initParam_succ] at h
  simp only [hps, hm, hqs, hd, hnul, Val.truthy, Bool.and_true, Bool.and_false, Bool.not_false,
    if_true, if_false, ite_self, Bool.false_and, Bool.true_and, Bool.and_self] at h
  split at h
  · exact absurd h (by simp)
  · split at h
    · exact absurd h (by simp)
    · injection h with h'
      subst h'
      refine ⟨rfl, ?_, ?_, ?_, ?_⟩
      · simpa [Parameter.default] using hsynth
      · exact fun c hc ht => lookup_filterMap_hit qs c hnd hc ht
      · exact fun c hc ht => lookup_filterMap_miss qs c hnd hc ht
      · intro kv hkv
        obtain ⟨c, hc, hfc⟩ := List.mem_filterMap.mp hkv
        unfold synthEntry at hfc
        by_cases ht : c.default.truthy = true
        · rw [if_pos ht] at hfc
          injection hfc with hfc'
          exact ⟨c, hc, ht, hfc'.symm⟩
        · rw [if_neg ht] at hfc
          cases hfc

/-- C1 witness: the spec's own example — model children `x` (default 1)
and `y` (no default) — synthesizes the default mapping containing exactly
`x ↦ 1`. -/
theorem claim_C1_witness :
    ((_initialize_parameter 6 cxM Option.none).toOption.getD cxM).parameters
        = [cxXN, cxYN].map PItem.param ∧
      ((_initialize_parameter 6 cxM Option.none).toOption.getD cxM).default
        = .dict ([cxXN, cxYN].filterMap synthEntry) ∧
      (∀ c ∈ [cxXN, cxYN], c.default.truthy = true →
        dGet? ([cxXN, cxYN].filterMap synthEntry) (keyStr c) = some c.default) ∧
      (∀ c ∈ [cxXN, cxYN], c.default.truthy = false →
        dGet? ([cxXN, cxYN].filterMap synthEntry) (keyStr c) = Option.none) ∧
      (∀ kv ∈ [cxXN, cxYN].filterMap synthEntry, ∃ c ∈ [cxXN, cxYN],
        c.default.truthy = true ∧ kv = (keyStr c, c.default)) :=
  claim_C1 5 cxM [.param cxX, .param cxY]
    ((_initialize_parameter 6 cxM Option.none).toOption.getD cxM) [cxXN, cxYN]
    rfl rfl rfl rfl rfl rfl (by decide)

/-! ### C8 -/

theorem dictInv_all (fuel : Nat) :
    (∀ (p : Parameter) (fn : Option (List SigParam)) (q : Parameter),
      _initialize_parameter fuel p fn = .ok q → DictInv q) ∧
    (∀ (items : List PItem) (qs : List Parameter),
      _generate_nested_params fuel items = .ok qs → ∀ q ∈ qs, DictInv q) := by
  induction fuel with
  | zero =>
    constructor
    · intro p fn q h
      exact absurd h (by simp [_initialize_parameter])
    · intro items qs h q hq
      cases items with
      | nil =>
        simp only [_generate_nested_params] at h
        injection h with h'
        subst h'
        cases hq
      | cons i rest => exact absurd h (by simp [_generate_nested_params])
  | succ fuel ih =>
    constructor
    · intro p fn q h
      rw [initParam_succ] at h
      dsimp only at h
      repeat any_goals split at h
      any_goals exact Except.noConfusion h
      all_goals injection h with h'
      all_goals subst h'
      all_goals
        first
        | (refine DictInv.mk _ (fun hne => absurd rfl hne) ?_
           intro c hc
           simp only [Parameter.parameters] at hc
           cases hc)
        | (refine DictInv.mk _ (fun _ => rfl) ?_
           intro c hc
           simp only [Parameter.parameters] at hc
           obtain ⟨a, ha, he⟩ := List.mem_map.mp hc
           injection he with he'
           subst he'
           rename _generate_nested_params _ _ = Except.ok _ => hgen
           exact ih.2 _ _ hgen _ ha)
    · intro items qs h q hq
      cases items with
      | nil =>
        simp only [_generate_nested_params] at h
        injection h with h'
        subst h'
        cases hq
      | cons i rest =>
        cases i with
        | param pc =>
          simp only [_generate_nested_params] at h
          split at h
          · exact Except.noConfusion h
          · split at h
            · exact Except.noConfusion h
            · injection h with h'
              subst h'
              rename _initialize_parameter fuel pc Option.none = Except.ok _ => hq1
              rename _generate_nested_params fuel rest = Except.ok _ => hqs1
              rcases List.mem_cons.mp hq with rfl | hqr
              · exact ih.1 _ _ _ hq1
              · exact ih.2 _ _ hqs1 q hqr
        | modelObj ps =>
          simp only [_generate_nested_params] at h
          split at h
          · exact Except.noConfusion h
          · split at h
            · exact Except.noConfusion h
            · injection h with h'
              subst h'
              rename _generate_nested_params fuel ps = Except.ok _ => ha
              rename _generate_nested_params fuel rest = Except.ok _ => hb
              rcases List.mem_append.mp hq with hqa | hqb
              · exact ih.2 _ _ ha q hqa
              · exact ih.2 _ _ hb q hqb
        | junk r => exact absurd h (by simp [_generate_nested_params])

/-- C8: after normalization, every Parameter anywhere in the resulting
tree with a non-empty `parameters` list has type Dictionary (the
`DictInv` invariant holds for every successfully normalized Parameter). -/
theorem claim_C8 (fuel : Nat) (p : Parameter) (fn : Option (List SigParam)) (q : Parameter)
    (h : _initialize_parameter fuel p fn = .ok q) : DictInv q :=
  (dictInv_all fuel).1 p fn q h

/-- C8 witness: the invariant at a concrete parameter with a nested child
(and, through it, at every node of the result tree). -/
theorem claim_C8_witness :
    DictInv ((_initialize_parameter 6
      (basicParam (some "n") Option.none Val.none .cnone [.param cxX] Option.none Option.none
        Option.none) Option.none).toOption.getD cxM) :=
  claim_C8 6
    (basicParam (some "n") Option.none Val.none .cnone [.param cxX] Option.none Option.none
      Option.none) Option.none _ rfl

/-- The per-parameter loop of `parse_client` preserves the list of keys. -/
theorem initAll_keys (fuel : Nat) (sig : List SigParam) (ps qs : List Parameter)
    (h : initAll fuel sig ps = .ok qs) :
    qs.map Parameter.key = ps.map Parameter.key := by
  induction ps generalizing qs with
  | nil =>
    injection h with h'
    subst h'
    rfl
  | cons p rest ih =>
    simp only [initAll] at h
    split at h
    · exact Except.noConfusion h
    · split at h
      · exact Except.noConfusion h
      · injection h with h'
        subst h'
        rename _initialize_parameter fuel p (some sig) = Except.ok _ => hq
        rename initAll fuel sig rest = Except.ok _ => hqs
        simp only [List.map_cons]
        rw [(initParam_fields fuel p (some sig) _ hq).1, ih _ hqs]

/-- Successful compilation of one method: the emitted Command's parameter
list is the normalization of the signature-merged declared list. -/
theorem runMethod_parameters (env : Env) (fuel : Nat) (m : Method) (c : Command)
    (m1 : Method) (h : runMethod env fuel m = .ok (c, m1)) :
    ∃ qs, initAll fuel m.sig
        (sigLoop m.sig ((m.cmdAttr.getD freshCommand).parameters ++ m.paramsAttr)) = .ok qs ∧
      c.parameters = qs := by
  unfold runMethod at h
  dsimp only at h
  split at h
  · exact Except.noConfusion h
  · split at h
    · exact Except.noConfusion h
    · injection h with h'
      rename initAll _ _ _ = Except.ok _ => hqs
      refine ⟨_, hqs, ?_⟩
      have hc : c = _ := (congrArg Prod.fst h').symm
      rw [hc]

/-! ### C7 -/

/-- C7 counterexample: a method with two `@parameter` annotations
declaring the same key `b` compiles to a Command whose top-level parameter
keys are `[b, b]` — not pairwise distinct, contradicting the claim. -/
theorem claim_C7_counterexample :
    (parse_client env0 8 [cxDupM]).map
        (fun r => r.1.map (fun c => c.parameters.map Parameter.key))
      = .ok [[some "b", some "b"]] ∧
      ¬ ([some "b", some "b"] : List (Option String)).Nodup :=
  ⟨rfl, by decide⟩

/-- C7 amended: every Command emitted by `parse_client` has pairwise
distinct top-level parameter keys, provided each method's declared raw
parameter list (the `@command` parameters plus the `@parameter`
annotations) has pairwise distinct keys; duplicate declared keys survive
to the output. -/
theorem claim_C7 (env : Env) (fuel : Nat) (ms : List Method) (cs : List Command)
    (ms1 : List Method) (h : parse_client env fuel ms = .ok (cs, ms1))
    (hnd : ∀ m ∈ ms,
      (((m.cmdAttr.getD freshCommand).parameters ++ m.paramsAttr).map Parameter.key).Nodup) :
    ∀ c ∈ cs, (c.parameters.map Parameter.key).Nodup := by
  induction ms generalizing cs ms1 with
  | nil =>
    injection h with h'
    have hcs : cs = [] := (congrArg Prod.fst h'.symm)
    subst hcs
    intro c hc
    cases hc
  | cons m rest ih =>
    simp only [parse_client] at h
    split at h
    · exact Except.noConfusion h
    · split at h
      · exact Except.noConfusion h
      · injection h with h'
        rename runMethod env fuel m = Except.ok _ => hrm
        rename parse_client env fuel rest = Except.ok _ => hrest
        have hcs : cs = _ := (congrArg Prod.fst h'.symm)
        subst hcs
        intro c hc
        rcases List.mem_cons.mp hc with rfl | hcr
        · obtain ⟨qs, hqs, hcp⟩ := runMethod_parameters env fuel m _ _ hrm
          rw [hcp, initAll_keys fuel m.sig _ qs hqs]
          exact sigLoop_keys_nodup m.sig (hnd m (List.mem_cons_self _ _))
        · exact ih _ _ hrest (fun m' hm' => hnd m' (List.mem_cons_of_mem _ hm')) c hcr

/-- C7 witness: the amended theorem at a concrete single-annotation
method; the emitted command's keys are distinct. -/
theorem claim_C7_witness :
    ((((parse_client env0 8 [cxSingleM]).toOption.getD ([], [])).1.headD
        freshCommand).parameters.map Parameter.key).Nodup :=
  claim_C7 env0 8 [cxSingleM] _ _ rfl (by decide) _ (List.mem_singleton.mpr rfl)

/-! ### C2 -/

/-- C2 counterexample: for `cxC2` the claim's inference says "command"
(mapping value containing the key "command"), but `_format_choices`
resolves the type to "static": `determine_type` only inspects strings, so
any mapping value — with or without a "command" key — infers "static". -/
theorem claim_C2_counterexample :
    claimedTypeInference (dGetD cxC2 "value" Val.none) = "command" ∧
      (_format_choices (.cval (.dict cxC2))).map (fun oc => oc.map Choices.type)
        = .ok (some "static") ∧
      "static" ≠ "command" :=
  ⟨rfl, rfl, by decide⟩

/-- C2 amended: for a choices mapping with no explicit `type` entry, the
resolved type is "url" for a string value starting with "http", "command"
for any other string value, and "static" in every other case — including a
mapping value that contains the key "command". -/
theorem claim_C2 (d : List (String × Val)) (c : Choices)
    (hnt : dGet? d "type" = Option.none)
    (h : _format_choices (.cval (.dict d)) = .ok (some c)) :
    c.type = determine_type (dGetD d "value" Val.none) := by
  simp only [_format_choices, hnt] at h
  split at h
  · exact absurd h (by simp)
  · split at h
    · exact absurd h (by simp)
    · split at h
      · exact absurd h (by simp)
      · split at h
        · split at h
          · exact absurd h (by simp)
          · split at h
            · exact absurd h (by simp)
            · injection h with h'
              injection h' with h''
              subst h''
              rfl
        · exact absurd h (by simp)

/-- C2 witness: the amended theorem at the concrete mapping
`{"value": "http://x"}`, whose resolved type is "url". -/
theorem claim_C2_witness :
    cxC2W.type = determine_type (dGetD [("value", .str "http://x")] "value" Val.none) :=
  claim_C2 [("value", .str "http://x")] cxC2W rfl rfl

/-! ### C10 -/

/-- C10: the `@command` and `@parameter` decorators return the very same
function object (identity, name, docstring, signature untouched); the only
effect of `@command` is storing the raw Command in `_command` (parameters
attribute untouched), and the only effect of `@parameter` is appending one
raw Parameter to the `parameters` attribute (`_command` untouched). -/
theorem claim_C10 (description : Option String) (ps : List Parameter)
    (command_type output_type : String) (schema form template : Val)
    (icon_name : Option String) (hidden : Bool)
    (key : Option String) (type : Option PType) (multi : Option Bool)
    (display_name : Option String) (optional : Option Bool) (default : Val)
    (pdescription : Option String) (choices : ChoiceSpec) (pparameters : List PItem)
    (nullable : Option Bool) (maximum : Option Int) (minimum : Option Int)
    (regex : Option String) (form_input_type : Option String) (type_info : Val)
    (is_kwarg : Option Bool) (model : Option (List PItem)) (m : Method) :
    (commandDecorator description ps command_type output_type schema form template
        icon_name hidden m).funcId = m.funcId ∧
    (commandDecorator description ps command_type output_type schema form template
        icon_name hidden m).name = m.name ∧
    (commandDecorator description ps command_type output_type schema form template
        icon_name hidden m).doc = m.doc ∧
    (commandDecorator description ps command_type output_type schema form template
        icon_name hidden m).sig = m.sig ∧
    (commandDecorator description ps command_type output_type schema form template
        icon_name hidden m).paramsAttr = m.paramsAttr ∧
    (commandDecorator description ps command_type output_type schema form template
        icon_name hidden m).cmdAttr =
      some (Command.mk Option.none description ps (some command_type) (some output_type)
        schema form template icon_name hidden) ∧
    (parameterDecorator key type multi display_name optional default pdescription choices
        pparameters nullable maximum minimum regex form_input_type type_info is_kwarg
        model m).funcId = m.funcId ∧
    (parameterDecorator key type multi display_name optional default pdescription choices
        pparameters nullable maximum minimum regex form_input_type type_info is_kwarg
        model m).name = m.name ∧
    (parameterDecorator key type multi display_name optional default pdescription choices
        pparameters nullable maximum minimum regex form_input_type type_info is_kwarg
        model m).doc = m.doc ∧
    (parameterDecorator key type multi display_name optional default pdescription choices
        pparameters nullable maximum minimum regex form_input_type type_info is_kwarg
        model m).sig = m.sig ∧
    (parameterDecorator key type multi display_name optional default pdescription choices
        pparameters nullable maximum minimum regex form_input_type type_info is_kwarg
        model m).cmdAttr = m.cmdAttr ∧
    (parameterDecorator key type multi display_name optional default pdescription choices
        pparameters nullable maximum minimum regex form_input_type type_info is_kwarg
        model m).paramsAttr = m.paramsAttr ++
      [Parameter.mk key type multi display_name optional default pdescription choices
        pparameters nullable maximum minimum regex form_input_type type_info is_kwarg
        model] :=
  ⟨rfl, rfl, rfl, rfl, rfl, rfl, rfl, rfl, rfl, rfl, rfl, rfl⟩

/-! ### C6 -/

/-- Counterexample to claim C6 (compilation never mutates caller-owned
input structures, so compiling the same client twice yields the same fresh
results): `_initialize_command` operates on the raw `Command` stored in the
method's `_command` attribute itself (`cmd = getattr(method, "_command",
Command())` aliases it), so `cmd.parameters += method.parameters`
(line 371) lands in the attribute.  Compiling `cxC6M` — a bare `@command`
plus one `@parameter` for `b` — once yields one parameter; compiling the
resulting (mutated) method again yields two copies of `b`. -/
theorem claim_C6_counterexample :
    (do
      let r1 ← runMethod env0 8 cxC6M
      let r2 ← runMethod env0 8 r1.2
      Except.ok (r1.1.parameters.map Parameter.key, r2.1.parameters.map Parameter.key))
      = Except.ok ([some "b"], [some "b", some "b"]) ∧
    ([some "b"] : List (Option String)) ≠ [some "b", some "b"] :=
  ⟨rfl, by decide⟩

/-- Claim C6: CORRECTED.  The spec claims compilation never mutates
caller-owned input structures, so recompiling a client reproduces the same
fresh Commands.  In the code the raw `Command` attached by `@command` is
compiled in place: `cmd = getattr(method, "_command", Command())` aliases
the stored attribute, the field assignments of `_initialize_command` land
in it, and `cmd.parameters += method.parameters` appends the declared
parameters to its list.  Amended statement: for a method whose attached
raw Command carries no schema/form/template display values, whose merged
parameter list has pairwise-distinct keys and consists of plain
(choices-free, parameter-only, non-Base64) parameter trees, a successful
compilation stores the compiled Command itself in the `_command`
attribute, and a second compilation then succeeds and appends the
(normalized) declared parameters once more: its parameter list is the
first compilation's list followed by the method's post-run parameters
attribute, so whenever at least one parameter was declared the two
compilations produce different parameter lists. -/
theorem claim_C6 (env : Env) (fuel : Nat) (m : Method) (c0 c1 : Command) (m1 : Method)
    (hattr : m.cmdAttr = some c0)
    (hs : c0.schema = Val.none) (hf : c0.form = Val.none) (ht : c0.template = Val.none)
    (hplain : ∀ p ∈ c0.parameters ++ m.paramsAttr,
      Plain p ∧ _format_type p.type ≠ "Base64")
    (hnd : ((c0.parameters ++ m.paramsAttr).map Parameter.key).Nodup)
    (h1 : runMethod env fuel m = .ok (c1, m1)) :
    m1.cmdAttr = some c1 ∧
    ∃ c2 m2, runMethod env fuel m1 = .ok (c2, m2) ∧
      c2.parameters = c1.parameters ++ m1.paramsAttr ∧
      m1.paramsAttr.length = m.paramsAttr.length ∧
      (m.paramsAttr ≠ [] → c2.parameters ≠ c1.parameters) := by
  unfold runMethod at h1
  dsimp only at h1
  rw [hattr] at h1
  simp only [Option.getD, Option.map] at h1
  rw [hs, hf, ht] at h1
  have hres : _resolve_display_modifiers env m.name Val.none Val.none Val.none
      = .ok (Val.none, Val.none, Val.none) := rfl
  rw [hres] at h1
  dsimp only at h1
  split at h1
  · exact Except.noConfusion h1
  · rename initAll _ _ _ = Except.ok _ => hP3
    rename_i params3
    injection h1 with h'
    have hc1 : _ = c1 := congrArg Prod.fst h'
    have hm1 : _ = m1 := congrArg Prod.snd h'
    subst hc1
    subst hm1
    obtain ⟨hlen3, hmem3⟩ := initAll_members fuel m.sig _ params3 hP3
    have hsub : ∀ x ∈ (params3.drop c0.parameters.length).take m.paramsAttr.length,
        x ∈ params3 := fun x hx => List.drop_subset _ _ (List.take_subset _ _ hx)
    have hP2src : ∀ p0 ∈ sigLoop m.sig (c0.parameters ++ m.paramsAttr),
        Plain p0 ∧ _format_type p0.type ≠ "Base64" := by
      intro p0 hp0
      rcases mem_sigLoop_src hp0 with h | ⟨p, hp, he⟩ | ⟨n, he⟩
      · exact hplain p0 h
      · obtain ⟨hpl, hb⟩ := hplain p hp
        subst he
        exact ⟨plain_setOptional false hpl, by rwa [setOptional_type]⟩
      · subst he
        refine ⟨plain_freshParam n, ?_⟩
        show _format_type Option.none ≠ "Base64"
        decide
    have hidem : ∀ q ∈ params3, _initialize_parameter fuel q (some m.sig) = .ok q := by
      intro q hq
      obtain ⟨p0, hp0, hini⟩ := hmem3 q hq
      obtain ⟨hpl, hb⟩ := hP2src p0 hp0
      exact (initIdem_fn fuel p0 q m.sig hpl hb hini).2
    have hkeyopt : ∀ a ∈ m.sig, ∀ q ∈ params3,
        q.key = some a.name → q.optional ≠ Option.none := by
      intro a ha q hq hk
      obtain ⟨p0, hp0, hini⟩ := hmem3 q hq
      have hfds := initParam_fields fuel p0 _ q hini
      rw [hfds.1] at hk
      rw [hfds.2.1]
      exact sigLoop_opt_set hnd a ha p0 hp0 hk
    have hcov : ∀ a ∈ m.sig, some a.name ∈ params3.map Parameter.key := by
      intro a ha
      rw [initAll_keys fuel m.sig _ params3 hP3]
      exact sigLoop_covers a ha
    refine ⟨rfl, ?_⟩
    have hcov' : ∀ a ∈ m.sig, some a.name ∈
        ((params3 ++ (params3.drop c0.parameters.length).take m.paramsAttr.length).map
          Parameter.key) := by
      intro a ha
      rw [List.map_append]
      exact List.mem_append_left _ (hcov a ha)
    have hopt' : ∀ a ∈ m.sig,
        ∀ p ∈ params3 ++ (params3.drop c0.parameters.length).take m.paramsAttr.length,
        p.key = some a.name → p.optional ≠ Option.none := by
      intro a ha p hp
      rcases List.mem_append.mp hp with h | h
      · exact hkeyopt a ha p h
      · exact hkeyopt a ha p (hsub p h)
    have hsig2 : sigLoop m.sig
        (params3 ++ (params3.drop c0.parameters.length).take m.paramsAttr.length) =
        params3 ++ (params3.drop c0.parameters.length).take m.paramsAttr.length :=
      sigLoop_noop hcov' hopt'
    have hinit2 : initAll fuel m.sig
        (params3 ++ (params3.drop c0.parameters.length).take m.paramsAttr.length) =
        .ok (params3 ++ (params3.drop c0.parameters.length).take m.paramsAttr.length) := by
      refine initAll_idem fuel m.sig _ ?_
      intro x hx
      rcases List.mem_append.mp hx with h | h
      · exact hidem x h
      · exact hidem x (hsub x h)
    have hlen : ((params3.drop c0.parameters.length).take m.paramsAttr.length).length
        = m.paramsAttr.length := by
      rw [List.length_take, List.length_drop, hlen3]
      have hge := sigLoop_length_ge m.sig (c0.parameters ++ m.paramsAttr)
      rw [List.length_append] at hge
      exact Nat.min_eq_left (by omega)
    unfold runMethod
    dsimp only [Option.getD]
    rw [hres]
    dsimp only
    rw [hsig2, hinit2]
    refine ⟨_, _, rfl, rfl, hlen, ?_⟩
    intro h0 hcontra
    have hle := congrArg List.length hcontra
    rw [List.length_append, hlen] at hle
    have hz : m.paramsAttr.length = 0 := by omega
    exact h0 (List.length_eq_zero.mp hz)

/-- Witness for C6: the amended theorem applied to the concrete method
`cxC6M` (bare `@command`, one declared parameter `b`, signature
`(self, b)`). -/
theorem claim_C6_witness :
    ∃ c0, cxC6M.cmdAttr = some c0 ∧ c0.schema = Val.none ∧
    ∃ c1 m1, runMethod env0 8 cxC6M = .ok (c1, m1) ∧ m1.cmdAttr = some c1 ∧
    ∃ c2 m2, runMethod env0 8 m1 = .ok (c2, m2) ∧
      c2.parameters = c1.parameters ++ m1.paramsAttr ∧
      m1.paramsAttr.length = cxC6M.paramsAttr.length ∧
      c2.parameters ≠ c1.parameters := by
  refine ⟨_, rfl, rfl, _, _, rfl, ?_⟩
  have h := claim_C6 env0 8 cxC6M _ _ _ rfl rfl rfl rfl
    (fun p hp => by
      rw [List.mem_singleton.mp hp]
      exact ⟨Plain.mk _ rfl nofun nofun nofun nofun, by decide⟩)
    (by decide) rfl
  obtain ⟨hm, c2, m2, hrun, hpar, hlen, hne⟩ := h
  exact ⟨hm, c2, m2, hrun, hpar, hlen, hne (fun hh => List.noConfusion hh)⟩

end Brewtils
